import Mathlib

/-!
Verification of the SkyTools backend download/fix core.

This file shallowly embeds the relevant parts of `backend/downloads.py` and
`backend/fixes.py` into Lean:

* the multi-source download worker `_download_zip_for_app` (source iteration,
  status-code skipping, zip-signature validation, placeholder fallback),
* the lua-entry selection and the directive-disable text transform of
  `_process_and_install_lua`,
* the request surface `start_add_via_skytools` / `cancel_add_via_skytools`,
* the transaction-log parser and rewriter of `_unfix_game_worker` together
  with the synchronous validation of `unfix_game`.

Python strings that undergo splitting/stripping are modelled as `List Char`;
Python `str.split`, `str.strip`, `str.replace` and `sep.join` are modelled by
executable functions `pySplit`, `pyStrip`, `pyReplace`, `pyJoin` below.
Network responses and the filesystem are passed in explicitly.
-/

namespace SkyTools

/-- Character-list strings, the carrier for Python text operations. -/
abbrev Chars := List Char

/-- Python whitespace for `str.strip` and the regex class `\s`
(ASCII part: space, tab, newline, carriage return, vertical tab, form feed). -/
def isPySpace (c : Char) : Bool :=
  c = ' ' || c = '\t' || c = '\n' || c = '\r' || c = '\x0b' || c = '\x0c'

/-- Python `str.strip()`: drop leading whitespace, then trailing whitespace. -/
def pyStrip (s : Chars) : Chars :=
  ((s.dropWhile isPySpace).reverse.dropWhile isPySpace).reverse

/-- Worker for `pySplit`: scan the text, cutting each time the separator
`sh :: st` is a prefix of the remaining text; `acc` is the reversed chunk
currently being built. -/
def splitOnSubAux (sh : Char) (st : Chars) : Chars → Chars → List Chars
  | [], acc => [acc.reverse]
  | c :: rest, acc =>
    if (sh :: st).isPrefixOf (c :: rest) then
      acc.reverse :: splitOnSubAux sh st (rest.drop st.length) []
    else
      splitOnSubAux sh st rest (c :: acc)
termination_by s _ => s.length
decreasing_by
  · simp only [List.length_drop, List.length_cons]
    omega
  · simp only [List.length_cons]
    omega

/-- Python `s.split(sep)` for a nonempty separator (an empty separator raises
in Python and never occurs in the embedded code). -/
def pySplit (sep s : Chars) : List Chars :=
  match sep with
  | [] => [s]
  | sh :: st => splitOnSubAux sh st s []

/-- Python `sep in s` (substring containment): `s.split(sep)` has more than
one part exactly when `sep` occurs in `s`. -/
def containsSub (sep s : Chars) : Bool :=
  (pySplit sep s).length != 1

/-- Python `sep.join(parts)`. -/
def pyJoin (sep : Chars) : List Chars → Chars
  | [] => []
  | [x] => x
  | x :: y :: t => x ++ sep ++ pyJoin sep (y :: t)

/-- Python `s.replace(old, new)` (all occurrences, left to right). -/
def pyReplace (old new s : Chars) : Chars :=
  pyJoin new (pySplit old s)

end SkyTools

namespace SkyTools

/-! ## Download orchestrator (`backend/downloads.py`, `_download_zip_for_app`) -/

/-- One enabled entry of the API manifest as consumed by
`_download_zip_for_app` (`api.get("name")`, `api.get("success_code")`,
`api.get("unavailable_code")`); the URL template is not needed by the claims
because each source is paired directly with its network outcome below. -/
structure ApiSource where
  name : String
  successCode : Nat
  unavailableCode : Nat
deriving Repr, DecidableEq

/-- Outcome of the single streaming request the worker issues to one source:
either a network-level exception (caught by the per-source `except` handler)
or a response with a status code and the fully streamed body bytes. -/
inductive NetResult where
  | netError
  | response (code : Nat) (body : List Nat)
deriving Repr, DecidableEq

/-- The three accepted zip signatures checked on the first four bytes
(`PK\x03\x04`, `PK\x05\x06`, `PK\x07\x08`). -/
def zipMagics : List (List Nat) :=
  [[0x50, 0x4B, 0x03, 0x04], [0x50, 0x4B, 0x05, 0x06], [0x50, 0x4B, 0x07, 0x08]]

/-- `magic = fh.read(4)` followed by the membership test against the zip
signatures; a body shorter than four bytes never matches. -/
def hasZipMagic (body : List Nat) : Bool :=
  zipMagics.contains (body.take 4)

/-- Terminal result of one run of `_download_zip_for_app`, projected to the
fields the claims are about: the final `status`, the final `api` field
(`apiUsed` in the spec), the `success` flag, the final `error`, whether the
installed-resource roster (`loaded apps` file) was updated, and the names of
the sources actually contacted, in contact order. -/
structure DlOutcome where
  status : String
  api : Option String
  success : Bool
  error : Option String
  rosterUpdated : Bool
  attempted : List String
deriving Repr, DecidableEq

/-- The fallback tail of `_download_zip_for_app`: `_create_basic_lua_file`
plus roster append and the terminal state write.  `fallbackOk` abstracts
whether that filesystem sequence succeeds (it fails e.g. when no Steam
install path can be found). -/
def fallbackOutcome (fallbackOk : Bool) (attempted : List String) : DlOutcome :=
  if fallbackOk then
    { status := "done", api := some "Basic Lua (Fallback)", success := true,
      error := none, rosterUpdated := true, attempted := attempted }
  else
    { status := "failed", api := none, success := false,
      error := some "Not available on any API", rosterUpdated := false,
      attempted := attempted }

/-- The source-iteration loop of `_download_zip_for_app`, run with no
cancellation requested.  Each manifest entry is paired with the outcome of
the one streaming request made to it.  `install` abstracts
`_process_and_install_lua` applied to the downloaded bytes: `none` means it
returned normally, `some msg` that it raised with message `msg`.  Skip rules,
in source order: network error; code equal to `unavailable_code`; code
different from `success_code`; streamed body without a zip signature.  A
valid archive is handed to `install`: success terminates with `done` and the
source name, an install exception terminates with `failed`. -/
def installLoop (install : List Nat → Option String) (fallbackOk : Bool) :
    List (ApiSource × NetResult) → List String → DlOutcome
  | [], attempted => fallbackOutcome fallbackOk attempted
  | (src, net) :: rest, attempted =>
    let attempted := attempted ++ [src.name]
    match net with
    | .netError => installLoop install fallbackOk rest attempted
    | .response code body =>
      if code = src.unavailableCode then
        installLoop install fallbackOk rest attempted
      else if code ≠ src.successCode then
        installLoop install fallbackOk rest attempted
      else if ¬ hasZipMagic body then
        installLoop install fallbackOk rest attempted
      else
        match install body with
        | none =>
          { status := "done", api := some src.name, success := true,
            error := none, rosterUpdated := true, attempted := attempted }
        | some msg =>
          { status := "failed", api := none, success := false,
            error := some ("Processing failed: " ++ msg), rosterUpdated := false,
            attempted := attempted }

/-- `_download_zip_for_app`: empty manifest fails immediately with
`"No APIs available"`; otherwise the source loop runs and, on exhaustion,
the placeholder fallback. -/
def downloadZipForApp (install : List Nat → Option String) (fallbackOk : Bool)
    (attempts : List (ApiSource × NetResult)) : DlOutcome :=
  if attempts.isEmpty then
    { status := "failed", api := none, success := false,
      error := some "No APIs available", rosterUpdated := false, attempted := [] }
  else
    installLoop install fallbackOk attempts []

/-- A source/outcome pair the loop skips: network error, unavailable code,
wrong code, or a success-coded body without a zip signature. -/
def skipsSource (src : ApiSource) : NetResult → Bool
  | .netError => true
  | .response code body =>
    code == src.unavailableCode || code != src.successCode || !hasZipMagic body

/-! ## Archive installer (`backend/downloads.py`, `_process_and_install_lua`) -/

/-- `os.path.basename` restricted to path separators: the part after the last
`/` or `\` (zip member names use forward slashes). -/
def pyBasename (s : Chars) : Chars :=
  (s.reverse.takeWhile (fun c => c ≠ '/' && c ≠ '\\')).reverse

/-- ASCII decimal digit, the `\d` of the installer regex on zip names. -/
def isDigitChar (c : Char) : Bool := '0' ≤ c && c ≤ '9'

/-- `re.fullmatch(r"\d+\.lua", pure)`: one or more digits followed by the
literal `.lua`, matching the whole base name. -/
def isNumericLua (p : Chars) : Bool :=
  let d := p.takeWhile isDigitChar
  !d.isEmpty && p.drop d.length == ".lua".toList

/-- Entry selection of `_process_and_install_lua`: filter entries whose base
name fully matches `\d+\.lua`; choose the first whose base name is exactly
`f"{appid}.lua"`, else the first candidate; with no candidate the installer
raises `"No numeric .lua file found in zip"`. -/
def selectLuaEntry (appid : Nat) (names : List Chars) : Except String Chars :=
  let candidates := names.filter (fun n => isNumericLua (pyBasename n))
  let preferred := (toString appid).toList ++ ".lua".toList
  match candidates.find? (fun n => pyBasename n == preferred) with
  | some c => .ok c
  | none =>
    match candidates with
    | c :: _ => .ok c
    | [] => .error "No numeric .lua file found in zip"

/-- `re.match(r"^\s*setManifestid\(", line)`: optional leading whitespace then
the directive call. -/
def matchesDirective (l : Chars) : Bool :=
  "setManifestid(".toList.isPrefixOf (l.dropWhile isPySpace)

/-- `re.match(r"^\s*--", line)`: optional leading whitespace then the Lua
comment marker. -/
def matchesComment (l : Chars) : Bool :=
  ['-', '-'].isPrefixOf (l.dropWhile isPySpace)

/-- `re.sub(r"^(\s*)", r"\1--", line)`: insert `--` after the maximal leading
whitespace run (the anchored pattern matches exactly once). -/
def commentOut (l : Chars) : Chars :=
  l.takeWhile isPySpace ++ '-' :: '-' :: l.dropWhile isPySpace

/-- The per-line body of the directive-disable loop in
`_process_and_install_lua`: comment out a `setManifestid(` invocation unless
the line is already commented. -/
def processLine (l : Chars) : Chars :=
  if matchesDirective l && !matchesComment l then commentOut l else l

/-- The whole transform, applied to the text split into lines
(`text.splitlines(True)` keeps each line terminator inside its line; the
transform only ever inserts `--` into a line, so it maps lines to lines). -/
def processLines (ls : List Chars) : List Chars :=
  ls.map processLine

/-! ## Request surface (`start_add_via_skytools`, `cancel_add_via_skytools`) -/

/-- The per-appid download status record held in `DOWNLOAD_STATE`, with one
optional field per dictionary key the module ever writes; `none` means the
key is absent.  An absent appid maps to the record with every field `none`
(`DOWNLOAD_STATE.get(appid) or {}`). -/
structure DlState where
  status : Option String
  error : Option String
  bytesRead : Option Nat
  totalBytes : Option Nat
  success : Option Bool
  api : Option String
  currentApi : Option String
  dest : Option String
  installedPath : Option String
deriving Repr, DecidableEq

/-- The empty status record (appid never written). -/
def emptyDlState : DlState :=
  ⟨none, none, none, none, none, none, none, none, none⟩

/-- State store keyed by appid; total with `emptyDlState` as default. -/
abbrev DlStore := Int → DlState

/-- Result of one synchronous call to `start_add_via_skytools`.  `parsed` is
the outcome of Python `int(appid)` on the request argument (`none` when the
conversion raises and the call is rejected).  `spawned` carries the appid a
worker thread was started for. -/
structure StartResult where
  success : Bool
  error : Option String
  store : DlStore
  spawned : Option Int

/-- `start_add_via_skytools`: reject only when `int(appid)` raises; otherwise
merge `{"status": "queued", "bytesRead": 0, "totalBytes": 0}` into the status
record and spawn the worker, returning the acknowledgment immediately. -/
def startAddViaSkytools (parsed : Option Int) (store : DlStore) : StartResult :=
  match parsed with
  | none =>
    { success := false, error := some "Invalid appid", store := store, spawned := none }
  | some n =>
    let st := store n
    let st := { st with status := some "queued", bytesRead := some 0, totalBytes := some 0 }
    { success := true, error := none,
      store := fun m => if m = n then st else store m, spawned := some n }

/-- Result of one synchronous call to `cancel_add_via_skytools`; `message` is
the optional `"Nothing to cancel"` field of the returned JSON. -/
structure CancelResult where
  success : Bool
  error : Option String
  message : Option String
  store : DlStore

/-- `cancel_add_via_skytools`: reject on unparseable appid; if the record is
empty (`not state`) or its status is `"done"` or `"failed"`, answer
`"Nothing to cancel"` without writing; otherwise merge
`{"status": "cancelled", "error": "Cancelled by user"}`. -/
def cancelAddViaSkytools (parsed : Option Int) (store : DlStore) : CancelResult :=
  match parsed with
  | none =>
    { success := false, error := some "Invalid appid", message := none, store := store }
  | some n =>
    let st := store n
    if st = emptyDlState || st.status = some "done" || st.status = some "failed" then
      { success := true, error := none, message := some "Nothing to cancel", store := store }
    else
      let st := { st with status := some "cancelled", error := some "Cancelled by user" }
      { success := true, error := none, message := none,
        store := fun m => if m = n then st else store m }

/-! ## Unfix worker (`backend/fixes.py`, `_unfix_game_worker`) -/

/-- Scanner state for one `[FIX]` block of the transaction log, mirroring the
local variables of the per-block loop (`block_date`, `block_lines`,
`in_files_section`) plus the file paths this block contributed to
`files_to_delete`, in encounter order. -/
structure BlockScan where
  blockDate : Option Chars
  blockLines : List Chars
  inFiles : Bool
  collected : List Chars
deriving Repr, DecidableEq

/-- Initial per-block scanner state. -/
def initBlockScan : BlockScan :=
  { blockDate := none, blockLines := [], inFiles := false, collected := [] }

/-- Whether a file line of the current block is added to the delete set:
`fix_date is None or (block_date and block_date == fix_date)`. -/
def collectHere (fixDate blockDate : Option Chars) : Bool :=
  match fixDate with
  | none => true
  | some fd =>
    match blockDate with
    | some bd => !bd.isEmpty && bd == fd
    | none => false

/-- The per-line loop over one `[FIX]` block of `_unfix_game_worker`:
stop at a stripped `[/FIX]` or `---` line; a `Date:`-prefixed line (after
stripping) sets the block date to the stripped remainder of
`replace("Date:", "")`; every scanned line is kept in `block_lines`;
a `Files:` line opens the files section, after which every nonblank stripped
line is a file path, collected when `collectHere` holds at that moment. -/
def scanBlockLines (fixDate : Option Chars) : List Chars → BlockScan → BlockScan
  | [], acc => acc
  | l :: rest, acc =>
    let ls := pyStrip l
    if ls == "[/FIX]".toList || ls == "---".toList then acc
    else
      let acc :=
        if "Date:".toList.isPrefixOf ls then
          { acc with blockDate := some (pyStrip (pyReplace "Date:".toList [] ls)) }
        else acc
      let acc := { acc with blockLines := acc.blockLines ++ [l] }
      let acc :=
        if ls == "Files:".toList then { acc with inFiles := true }
        else if acc.inFiles && !ls.isEmpty then
          if collectHere fixDate acc.blockDate then
            { acc with collected := acc.collected ++ [ls] }
          else acc
        else acc
      scanBlockLines fixDate rest acc

/-- Whether a finished block is kept for the rewritten log:
`fix_date is not None and block_date and block_date != fix_date`. -/
def retainBlock (fixDate blockDate : Option Chars) : Bool :=
  match fixDate, blockDate with
  | some fd, some bd => !bd.isEmpty && bd != fd
  | _, _ => false

/-- Re-serialization of a retained block:
`"[FIX]\n" + "\n".join(block_lines) + "\n[/FIX]"`. -/
def reserializeBlock (blockLines : List Chars) : Chars :=
  "[FIX]\n".toList ++ pyJoin ['\n'] blockLines ++ "\n[/FIX]".toList

/-- The legacy (marker-less) scan of `_unfix_game_worker`: over all stripped
lines, a line equal to `Files:` opens the files section, after which every
nonblank stripped line is collected, with no date selection and no retained
blocks. -/
def legacyScan : List Chars → Bool → List Chars → List Chars
  | [], _, acc => acc
  | l :: rest, inF, acc =>
    let ls := pyStrip l
    if ls == "Files:".toList then legacyScan rest true acc
    else if inF && !ls.isEmpty then legacyScan rest inF (acc ++ [ls])
    else legacyScan rest inF acc

/-- Processing of one fragment of the `[FIX]`-split inside the per-block
loop of `_unfix_game_worker`: blank fragments are skipped; otherwise the
block is scanned line by line, its collected files joining the delete set
and, when the date filter retains it, its re-serialization joining
`remaining_fixes`. -/
def unfixBlockStep (fixDate : Option Chars) (acc : List Chars × List Chars)
    (block : Chars) : List Chars × List Chars :=
  if (pyStrip block).isEmpty then acc
  else
    let scan := scanBlockLines fixDate (pySplit ['\n'] block) initBlockScan
    (acc.1 ++ scan.collected,
     if retainBlock fixDate scan.blockDate then
       acc.2 ++ [reserializeBlock scan.blockLines]
     else acc.2)

/-- Log parsing of `_unfix_game_worker`: if `"[FIX]" in log_content`, split
on `[FIX]` and fold the per-block step over the fragments; otherwise run the
legacy scan over all lines.  Returns `(files_to_delete, remaining_fixes)` —
the delete set is modelled as the list of entries added, in order (Python
keeps them in a `set`, so only membership is observable). -/
def parseUnfixLog (content : Chars) (fixDate : Option Chars) :
    List Chars × List Chars :=
  if containsSub "[FIX]".toList content then
    (pySplit "[FIX]".toList content).foldl (unfixBlockStep fixDate) ([], [])
  else
    (legacyScan (pySplit ['\n'] content) false [], [])

/-- What happens to the log file at the end of the worker: rewritten with the
joined remaining blocks, removed, or left as is (worker failed earlier). -/
inductive LogAction where
  | rewrite (content : Chars)
  | remove
  | keep
deriving Repr, DecidableEq

/-- Terminal result of one `_unfix_game_worker` run, projected to the fields
the claims are about. -/
structure UnfixOutcome where
  status : String
  error : Option String
  deleteSet : List Chars
  logAction : LogAction
deriving Repr, DecidableEq

/-- `_unfix_game_worker` given the content of
`<installPath>/luatools-fix-log-<appid>.log` (`none` when the file does not
exist) and the worker's `fix_date` argument: missing log fails with
`"No fix log found. Cannot un-fix."`; otherwise the log is parsed, the delete
set removed best-effort, and the log rewritten as
`"\n\n---\n\n".join(remaining_fixes)` when blocks remain, else deleted. -/
def unfixGameWorker (logContent : Option Chars) (fixDate : Option Chars) :
    UnfixOutcome :=
  match logContent with
  | none =>
    { status := "failed", error := some "No fix log found. Cannot un-fix.",
      deleteSet := [], logAction := .keep }
  | some content =>
    let parsed := parseUnfixLog content fixDate
    { status := "done", error := none, deleteSet := parsed.1,
      logAction :=
        if parsed.2.isEmpty then .remove
        else .rewrite (pyJoin "\n\n---\n\n".toList parsed.2) }

/-- Result of the synchronous part of `unfix_game` (before the worker runs). -/
structure UnfixCallResult where
  success : Bool
  error : Option String
  queuedWorker : Bool
deriving Repr, DecidableEq

/-- The synchronous validation of `unfix_game`: reject when `int(appid)`
raises; resolve an empty install path through the external collaborator
(`resolve`, `none` when that fails); reject when the resolved path does not
exist; otherwise set the unfix status to `queued`, spawn the worker and
return the acknowledgment.  The transaction log is not consulted here. -/
def unfixGameCall (parsed : Option Int) (installPath : String)
    (resolve : Option String) (pathExists : String → Bool) : UnfixCallResult :=
  match parsed with
  | none => { success := false, error := some "Invalid appid", queuedWorker := false }
  | some _ =>
    let resolved : Option String :=
      if installPath = "" then resolve else some installPath
    match resolved with
    | none =>
      { success := false, error := some "Could not find game install path",
        queuedWorker := false }
    | some p =>
      if pathExists p then
        { success := true, error := none, queuedWorker := true }
      else
        { success := false, error := some "Install path does not exist",
          queuedWorker := false }

/-! ## Transaction-log format (writer side, `_download_and_extract_fix`) -/

/-- One fix transaction record as written to the log. -/
structure FixRecord where
  date : Chars
  game : Chars
  fixType : Chars
  url : Chars
  files : List Chars
deriving Repr, DecidableEq

/-- The metadata and file lines of one block body, in writer order
(everything between the `[FIX]` and `[/FIX]` marker lines). -/
def blockBodyLines (r : FixRecord) : List Chars :=
  ("Date: ".toList ++ r.date) :: ("Game: ".toList ++ r.game) ::
    ("Fix Type: ".toList ++ r.fixType) :: ("Download URL: ".toList ++ r.url) ::
    "Files:".toList :: r.files

/-- The text a block contributes after its `[FIX]` marker: a newline, the
body lines, a newline and the `[/FIX]\n` terminator line. -/
def blockTail (r : FixRecord) : Chars :=
  '\n' :: pyJoin ['\n'] (blockBodyLines r) ++ "\n[/FIX]\n".toList

/-- A three-block transaction log exactly as three successive
`_download_and_extract_fix` runs write it: each block is
`[FIX]\n<body>\n[/FIX]\n` and consecutive blocks are separated by the
`\n---\n\n` delimiter the writer appends between fixes. -/
def serializeThree (r1 r2 r3 : FixRecord) : Chars :=
  "[FIX]".toList ++ blockTail r1 ++ "\n---\n\n".toList ++
    "[FIX]".toList ++ blockTail r2 ++ "\n---\n\n".toList ++
    "[FIX]".toList ++ blockTail r3

/-- A legacy (marker-less) transaction log: arbitrary header lines followed
by a `Files:` line and the listed file paths, one per line. -/
def serializeLegacy (headerLines : List Chars) (files : List Chars) : Chars :=
  pyJoin ['\n'] (headerLines ++ "Files:".toList :: files)

/-- Well-formedness of free text fields (game name, fix type, URL): no line
break and no `[` character, so markers cannot be forged. -/
def wfText (s : Chars) : Prop :=
  '\n' ∉ s ∧ '[' ∉ s

/-- A string Python `strip()` leaves unchanged (no leading or trailing
whitespace), phrased by the two one-sided scans. -/
def strippedStr (s : Chars) : Prop :=
  s.dropWhile isPySpace = s ∧ s.reverse.dropWhile isPySpace = s.reverse

/-- Well-formed metadata field (date, game name, fix type, URL): no line
break, no `[` (so markers cannot be forged), no leading or trailing
whitespace, nonempty. -/
def wfField (s : Chars) : Prop :=
  '\n' ∉ s ∧ '[' ∉ s ∧ strippedStr s ∧ s ≠ []

/-- Well-formed block date: a well-formed field not itself containing the
`Date:` key (which `replace("Date:", "")` would also delete). -/
def wfDate (s : Chars) : Prop :=
  wfField s ∧ ¬ "Date:".toList <:+: s

/-- Well-formed listed file path: a well-formed field not colliding with the
parser's structural lines (`---` terminator, `Files:` section opener,
`Date:` key prefix). -/
def wfFile (s : Chars) : Prop :=
  wfField s ∧ s ≠ "---".toList ∧ s ≠ "Files:".toList ∧ ¬ "Date:".toList <+: s

/-- Well-formed fix record. -/
def wfRecord (r : FixRecord) : Prop :=
  wfDate r.date ∧ wfField r.game ∧ wfField r.fixType ∧ wfField r.url ∧
    ∀ f ∈ r.files, wfFile f

/-- Well-formed legacy header line: marker-free and, once stripped, not the
`Files:` section opener. -/
def wfLegacyHeader (s : Chars) : Prop :=
  wfText s ∧ pyStrip s ≠ "Files:".toList

/-! ## Concrete example values (used by witnesses and counterexamples) -/

/-- An install function that always succeeds. -/
def installAlwaysOk : List Nat → Option String := fun _ => none

/-- The manifest source `A(unavailable=404)` of the specification example. -/
def apiA : ApiSource := { name := "A", successCode := 200, unavailableCode := 404 }

/-- The manifest source `B(success=200)` of the specification example. -/
def apiB : ApiSource := { name := "B", successCode := 200, unavailableCode := 404 }

/-- A minimal body carrying the local-file-header zip signature. -/
def zipBody : List Nat := [0x50, 0x4B, 0x03, 0x04, 0x00]

/-- An empty status store. -/
def storeEmpty : DlStore := fun _ => emptyDlState

/-- A store whose every record is cancelled with a non-standard error text. -/
def storeCancelledOther : DlStore :=
  fun _ => { emptyDlState with status := some "cancelled", error := some "x" }

/-- A store whose every record is a prior user cancellation. -/
def storeCancelledUser : DlStore :=
  fun _ =>
    { emptyDlState with status := some "cancelled", error := some "Cancelled by user" }

/-- A store holding a record in mid-download state for every id. -/
def storeDownloading : DlStore :=
  fun _ => { emptyDlState with status := some "downloading", bytesRead := some 5 }

/-- A filesystem on which every path exists. -/
def fsAllPaths : String → Bool := fun _ => true

/-- A filesystem on which no path exists. -/
def fsNoPaths : String → Bool := fun _ => false

/-- Concrete fix records for the three-block log example. -/
def recD1 : FixRecord :=
  { date := "2024-01-01 10:00:00".toList, game := "GameA".toList,
    fixType := "Generic Fix".toList, url := "http://a".toList,
    files := ["a.dll".toList, "sub/a2.dll".toList] }

/-- Second concrete fix record (the one selected for removal). -/
def recD2 : FixRecord :=
  { date := "2024-02-02 11:00:00".toList, game := "GameA".toList,
    fixType := "Online Fix (Unsteam)".toList, url := "http://b".toList,
    files := ["b.ini".toList] }

/-- Third concrete fix record. -/
def recD3 : FixRecord :=
  { date := "2024-03-03 12:00:00".toList, game := "GameA".toList,
    fixType := "Generic Fix".toList, url := "http://c".toList,
    files := ["c.dll".toList] }

end SkyTools

namespace SkyTools

/-! ## Download loop lemmas -/

/-- A skipped source advances the loop to the remaining sources, recording
only that the source was contacted. -/
theorem installLoop_skip (i : List Nat → Option String) (fb : Bool)
    (src : ApiSource) (net : NetResult) (rest : List (ApiSource × NetResult))
    (acc : List String) (h : skipsSource src net = true) :
    installLoop i fb ((src, net) :: rest) acc
      = installLoop i fb rest (acc ++ [src.name]) := by
  cases net with
  | netError => simp [installLoop]
  | response code body =>
    simp only [skipsSource, Bool.or_eq_true, beq_iff_eq, bne_iff_ne, ne_eq,
      Bool.not_eq_true'] at h
    by_cases hu : code = src.unavailableCode
    · simp [installLoop, hu]
    · by_cases hs : code = src.successCode
      · have hm : hasZipMagic body = false := by tauto
        simp [installLoop, hu, hs, hm]
      · simp [installLoop, hu, hs]

/-- A prefix of skipped sources is traversed in order without terminating
the loop. -/
theorem installLoop_skip_all (i : List Nat → Option String) (fb : Bool)
    (pre rest : List (ApiSource × NetResult)) (acc : List String)
    (h : ∀ p ∈ pre, skipsSource p.1 p.2 = true) :
    installLoop i fb (pre ++ rest) acc
      = installLoop i fb rest (acc ++ pre.map (fun p => p.1.name)) := by
  induction pre generalizing acc with
  | nil => simp
  | cons p t ih =>
    obtain ⟨src, net⟩ := p
    rw [List.cons_append, installLoop_skip i fb src net _ _ (h _ (List.mem_cons_self _ _)),
      ih _ (fun q hq => h q (List.mem_cons_of_mem _ hq))]
    simp

/-- With a succeeding fallback and an install step that never raises, the
loop always terminates with status `done`. -/
theorem installLoop_done (i : List Nat → Option String)
    (l : List (ApiSource × NetResult)) (acc : List String)
    (hi : ∀ b, i b = none) :
    (installLoop i true l acc).status = "done" := by
  induction l generalizing acc with
  | nil => simp [installLoop, fallbackOutcome]
  | cons p t ih =>
    obtain ⟨src, net⟩ := p
    cases net with
    | netError => simpa [installLoop] using ih _
    | response code body =>
      simp only [installLoop]
      by_cases hu : code = src.unavailableCode
      · simpa [hu] using ih _
      · by_cases hs : code = src.successCode
        · by_cases hm : hasZipMagic body
          · have hsu : ¬ src.successCode = src.unavailableCode := hs ▸ hu
            simp [hu, hs, hm, hi body, hsu]
          · simpa [hu, hs, hm] using ih _
        · simpa [hu, hs] using ih _

/-- C1: the download worker attempts manifest sources strictly in order; all
sources before the first one that answers its success code with a
zip-signed body are contacted and skipped (unavailable code, wrong code,
network error, or invalid signature), and that first valid source is the one
installed — the terminal status is `done` with `apiUsed` (the `api` field)
equal to that source's name and the contacted sources are exactly the
preceding prefix followed by the winner. -/
theorem download_first_valid_source_wins (install : List Nat → Option String)
    (fallbackOk : Bool) (pre post : List (ApiSource × NetResult))
    (s : ApiSource) (body : List Nat)
    (hpre : ∀ p ∈ pre, skipsSource p.1 p.2 = true)
    (hcode : s.successCode ≠ s.unavailableCode)
    (hmagic : hasZipMagic body = true)
    (hinstall : install body = none) :
    downloadZipForApp install fallbackOk (pre ++ (s, .response s.successCode body) :: post)
      = { status := "done", api := some s.name, success := true, error := none,
          rosterUpdated := true,
          attempted := pre.map (fun p => p.1.name) ++ [s.name] } := by
  rw [downloadZipForApp, if_neg (by simp)]
  rw [installLoop_skip_all install fallbackOk pre _ [] hpre]
  simp only [installLoop, if_neg hcode, List.nil_append]
  rw [if_neg (by simp), if_neg (by simp [hmagic]), hinstall]

/-- C1 witness: the specification example — manifest `[A, B]`, `A` answering
its unavailable code 404 and `B` answering 200 with a zip body — installs
from `B` and records `apiUsed = "B"`. -/
theorem download_first_valid_source_wins_witness :
    downloadZipForApp installAlwaysOk true
      [(apiA, .response 404 []), (apiB, .response 200 zipBody)]
      = { status := "done", api := some "B", success := true, error := none,
          rosterUpdated := true, attempted := ["A", "B"] } :=
  download_first_valid_source_wins installAlwaysOk true
    [(apiA, .response 404 [])] [] apiB zipBody
    (by decide) (by decide) (by decide) rfl

/-- C3: a source answering its success code with a body that does not start
with one of the zip signatures is skipped — the loop result equals the run
on the remaining sources, only recording the contact — and, when every
install succeeds and the placeholder fallback succeeds, the run still
terminates with status `done`. -/
theorem invalid_archive_source_skipped (install : List Nat → Option String)
    (fallbackOk : Bool) (s : ApiSource) (body : List Nat)
    (rest : List (ApiSource × NetResult)) (acc : List String)
    (hmagic : hasZipMagic body = false) :
    installLoop install fallbackOk ((s, .response s.successCode body) :: rest) acc
      = installLoop install fallbackOk rest (acc ++ [s.name])
    ∧ ((∀ b, install b = none) →
        (installLoop install true ((s, .response s.successCode body) :: rest) acc).status
          = "done") := by
  constructor
  · exact installLoop_skip install fallbackOk s _ rest acc (by simp [skipsSource, hmagic])
  · intro hi
    exact installLoop_done install _ acc hi

/-- C3 witness: a success-coded non-zip body (`"<html>"`-like bytes) from `A`
is skipped and the run on `[A, B]` still reaches `done` via `B`. -/
theorem invalid_archive_source_skipped_witness :
    installLoop installAlwaysOk true
      [(apiA, .response 200 [0x3C, 0x68, 0x74]), (apiB, .response 200 zipBody)] []
      = installLoop installAlwaysOk true [(apiB, .response 200 zipBody)] ["A"]
    ∧ (installLoop installAlwaysOk true
        [(apiA, .response 200 [0x3C, 0x68, 0x74]), (apiB, .response 200 zipBody)] []).status
        = "done" :=
  ⟨(invalid_archive_source_skipped installAlwaysOk true apiA [0x3C, 0x68, 0x74]
      [(apiB, .response 200 zipBody)] [] (by decide)).1,
   (invalid_archive_source_skipped installAlwaysOk true apiA [0x3C, 0x68, 0x74]
      [(apiB, .response 200 zipBody)] [] (by decide)).2 (fun _ => rfl)⟩

/-- C4 counterexample: the claim "sets the terminal status to done with
success=true and apiUsed=\"Fallback\"" fails on the code at the explicit
input of a one-source manifest whose source answers 404: the terminal `api`
field is the literal `"Basic Lua (Fallback)"`, not `"Fallback"`; moreover an
empty manifest terminates `failed` without attempting the fallback at all. -/
theorem download_fallback_label_counterexample :
    (downloadZipForApp installAlwaysOk true [(apiA, .response 404 [])]).api
      = some "Basic Lua (Fallback)"
    ∧ some "Basic Lua (Fallback)" ≠ (some "Fallback" : Option String)
    ∧ (downloadZipForApp installAlwaysOk true []).status = "failed" := by
  refine ⟨rfl, by decide, rfl⟩

/-- C4 amended: for every download over a nonempty manifest that exhausts
every source without a valid archive, the worker runs the placeholder
fallback: if the fallback path succeeds the terminal status is `done` with
`success = true`, `apiUsed = "Basic Lua (Fallback)"` and the installation
recorded in the roster; a `failed` terminal state arises only when the
fallback path itself fails (with an empty manifest the worker instead fails
immediately with `"No APIs available"`). -/
theorem download_fallback_terminal (install : List Nat → Option String)
    (fallbackOk : Bool) (attempts : List (ApiSource × NetResult))
    (hne : attempts ≠ [])
    (hall : ∀ p ∈ attempts, skipsSource p.1 p.2 = true) :
    (fallbackOk = true →
      downloadZipForApp install fallbackOk attempts
        = { status := "done", api := some "Basic Lua (Fallback)", success := true,
            error := none, rosterUpdated := true,
            attempted := attempts.map (fun p => p.1.name) })
    ∧ (fallbackOk = false →
      downloadZipForApp install fallbackOk attempts
        = { status := "failed", api := none, success := false,
            error := some "Not available on any API", rosterUpdated := false,
            attempted := attempts.map (fun p => p.1.name) }) := by
  have hrun : downloadZipForApp install fallbackOk attempts
      = fallbackOutcome fallbackOk (attempts.map (fun p => p.1.name)) := by
    rw [downloadZipForApp, if_neg (by simpa using hne)]
    have := installLoop_skip_all install fallbackOk attempts [] [] hall
    simpa [installLoop] using this
  constructor
  · intro hfb
    rw [hrun, hfb]
    rfl
  · intro hfb
    rw [hrun, hfb]
    rfl

/-- C4 amended witness: a one-source manifest answering 404, with a working
fallback, terminates `done` with `apiUsed = "Basic Lua (Fallback)"`. -/
theorem download_fallback_terminal_witness :
    downloadZipForApp installAlwaysOk true [(apiA, .response 404 [])]
      = { status := "done", api := some "Basic Lua (Fallback)", success := true,
          error := none, rosterUpdated := true, attempted := ["A"] } :=
  (download_fallback_terminal installAlwaysOk true [(apiA, .response 404 [])]
      (by decide) (by decide)).1 rfl

/-! ## Request surface -/

/-- C8 counterexample: the claim that every non-positive id is rejected
without resetting the status record or spawning a worker fails at the
explicit input `-5` (any id Python `int()` accepts): the call succeeds, the
record is reset to `queued`, and a worker is spawned for `-5`. -/
theorem start_accepts_nonpositive_counterexample :
    (startAddViaSkytools (some (-5)) storeEmpty).success = true
    ∧ (startAddViaSkytools (some (-5)) storeEmpty).spawned = some (-5)
    ∧ ((startAddViaSkytools (some (-5)) storeEmpty).store (-5)).status = some "queued" := by
  refine ⟨rfl, rfl, ?_⟩
  simp [startAddViaSkytools, storeEmpty]

/-- C8 amended: `start_add_via_skytools` rejects exactly the requests whose
id Python `int()` cannot convert, leaving the store untouched and spawning
nothing; every convertible id — zero and negative ids included — is
accepted: the status record is reset to `queued` with zero byte counters,
other records are untouched, a worker is spawned for that id, and the
acknowledgment is returned immediately. -/
theorem start_add_validation (store : DlStore) (n : Int) :
    (startAddViaSkytools none store).success = false
    ∧ (startAddViaSkytools none store).error = some "Invalid appid"
    ∧ (startAddViaSkytools none store).store = store
    ∧ (startAddViaSkytools none store).spawned = none
    ∧ (startAddViaSkytools (some n) store).success = true
    ∧ (startAddViaSkytools (some n) store).spawned = some n
    ∧ ((startAddViaSkytools (some n) store).store n).status = some "queued"
    ∧ ((startAddViaSkytools (some n) store).store n).bytesRead = some 0
    ∧ ((startAddViaSkytools (some n) store).store n).totalBytes = some 0
    ∧ ((startAddViaSkytools (some n) store).store n).error = (store n).error
    ∧ ∀ m, m ≠ n → (startAddViaSkytools (some n) store).store m = store m := by
  refine ⟨rfl, rfl, rfl, rfl, rfl, rfl, ?_, ?_, ?_, ?_, ?_⟩
  · simp [startAddViaSkytools]
  · simp [startAddViaSkytools]
  · simp [startAddViaSkytools]
  · simp [startAddViaSkytools]
  · intro m hm
    simp [startAddViaSkytools, hm]

/-- C8 amended witness: id `0` is accepted and its record reset to queued;
an unparseable id is rejected without touching the store. -/
theorem start_add_validation_witness :
    ((startAddViaSkytools (some 0) storeEmpty).store 0).status = some "queued"
    ∧ (startAddViaSkytools (some 0) storeEmpty).success = true
    ∧ (startAddViaSkytools none storeEmpty).success = false
    ∧ (startAddViaSkytools (some 0) storeEmpty).store 7 = storeEmpty 7 :=
  ⟨(start_add_validation storeEmpty 0).2.2.2.2.2.2.1,
   (start_add_validation storeEmpty 0).2.2.2.2.1,
   (start_add_validation storeEmpty 0).1,
   (start_add_validation storeEmpty 0).2.2.2.2.2.2.2.2.2.2 7 (by decide)⟩

/-- C9 counterexample: the claim that a record in the terminal status
`cancelled` gets a no-op answer with the record left unchanged fails on the
code: at the explicit input of a record `{status: "cancelled", error: "x"}`
for id `7`, cancel takes the write path — the reply lacks the
`"Nothing to cancel"` no-op message and the record's error is rewritten to
`"Cancelled by user"`, changing it; even for a record produced by a previous
user cancellation the reply is not the no-op reply. -/
theorem cancel_cancelled_not_noop_counterexample :
    ((cancelAddViaSkytools (some 7) storeCancelledOther).store 7).error
      = some "Cancelled by user"
    ∧ (cancelAddViaSkytools (some 7) storeCancelledOther).store 7
        ≠ storeCancelledOther 7
    ∧ (cancelAddViaSkytools (some 7) storeCancelledOther).message = none
    ∧ (cancelAddViaSkytools (some 7) storeCancelledUser).message
        ≠ some "Nothing to cancel" := by
  refine ⟨?_, ?_, ?_, ?_⟩ <;>
    simp [cancelAddViaSkytools, storeCancelledOther, storeCancelledUser, emptyDlState]

/-- C9 amended: `cancel_add_via_skytools` answers the no-op reply
`"Nothing to cancel"` and leaves the store untouched exactly when the
record is empty or its status is `done` or `failed`; for every other record
— `cancelled` included — it takes the write path: plain success without the
no-op message, the record's status set to `cancelled` and its error to
`"Cancelled by user"` (an already user-cancelled record is thus rewritten,
unchanged in value only because the same two fields are stored again), and
other ids' records are untouched. -/
theorem cancel_add_noop_set (store : DlStore) (n : Int) :
    ((store n = emptyDlState ∨ (store n).status = some "done"
        ∨ (store n).status = some "failed") →
      cancelAddViaSkytools (some n) store
        = { success := true, error := none, message := some "Nothing to cancel",
            store := store })
    ∧ (store n ≠ emptyDlState → (store n).status ≠ some "done" →
        (store n).status ≠ some "failed" →
        (cancelAddViaSkytools (some n) store).success = true
        ∧ (cancelAddViaSkytools (some n) store).message = none
        ∧ ((cancelAddViaSkytools (some n) store).store n).status = some "cancelled"
        ∧ ((cancelAddViaSkytools (some n) store).store n).error
            = some "Cancelled by user"
        ∧ ∀ m, m ≠ n → (cancelAddViaSkytools (some n) store).store m = store m) := by
  constructor
  · intro h
    rw [cancelAddViaSkytools, if_pos (by rcases h with h | h | h <;> simp [h])]
  · intro h1 h2 h3
    rw [cancelAddViaSkytools, if_neg (by simp [h1, h2, h3])]
    refine ⟨rfl, rfl, by simp, by simp, ?_⟩
    intro m hm
    simp [hm]

/-- C9 amended witness: a mid-download record is cancelled with the user
message, a `done` record gets the no-op reply. -/
theorem cancel_add_noop_set_witness :
    ((cancelAddViaSkytools (some 3) storeDownloading).store 3).status
      = some "cancelled"
    ∧ ((cancelAddViaSkytools (some 3) storeDownloading).store 3).error
        = some "Cancelled by user"
    ∧ (cancelAddViaSkytools (some 3) storeDownloading).message = none :=
  ⟨((cancel_add_noop_set storeDownloading 3).2 (by decide) (by decide) (by decide)).2.2.1,
   ((cancel_add_noop_set storeDownloading 3).2 (by decide) (by decide) (by decide)).2.2.2.1,
   ((cancel_add_noop_set storeDownloading 3).2 (by decide) (by decide) (by decide)).2.1⟩

/-! ## Unfix request validation -/

/-- C7 counterexample: the claim that an unfix request on an install path
with no transaction log is rejected synchronously with the
"no fix log found" error fails on the code at the explicit input of a valid
id and an existing install path holding no log: the synchronous call is
accepted (success, worker queued) and the missing log surfaces only in the
worker as the asynchronous terminal state
`failed` / `"No fix log found. Cannot un-fix."`. -/
theorem unfix_missing_log_async_counterexample :
    (unfixGameCall (some 7) "C:/game" none fsAllPaths).success = true
    ∧ (unfixGameCall (some 7) "C:/game" none fsAllPaths).queuedWorker = true
    ∧ (unfixGameCall (some 7) "C:/game" none fsAllPaths).error = none
    ∧ (unfixGameWorker none none).status = "failed"
    ∧ (unfixGameWorker none none).error = some "No fix log found. Cannot un-fix." := by
  refine ⟨rfl, rfl, rfl, rfl, rfl⟩

/-- C7 amended: only missing/unresolvable install paths and unparseable ids
are rejected synchronously by `unfix_game`; a missing transaction log is
not checked at call time — the request is accepted and the worker then
records the asynchronous terminal state `failed` with
`"No fix log found. Cannot un-fix."` in the unfix status. -/
theorem unfix_missing_log_reported_async (n : Int) (p : String)
    (fs fsMissing : String → Bool) (fd : Option Chars)
    (hp : p ≠ "") (hex : fs p = true) (hmiss : fsMissing p = false) :
    (unfixGameCall (some n) p none fs).success = true
    ∧ (unfixGameCall (some n) p none fs).queuedWorker = true
    ∧ (unfixGameWorker none fd).status = "failed"
    ∧ (unfixGameWorker none fd).error = some "No fix log found. Cannot un-fix."
    ∧ (unfixGameCall none p none fs).success = false
    ∧ (unfixGameCall none p none fs).error = some "Invalid appid"
    ∧ (unfixGameCall (some n) p none fsMissing).success = false
    ∧ (unfixGameCall (some n) p none fsMissing).error
        = some "Install path does not exist" := by
  refine ⟨?_, ?_, rfl, rfl, rfl, rfl, ?_, ?_⟩ <;>
    simp [unfixGameCall, hp, hex, hmiss]

/-- C7 amended witness: concrete instance at id 7 and path `"C:/game"`. -/
theorem unfix_missing_log_reported_async_witness :
    (unfixGameCall (some 7) "C:/game" none fsAllPaths).success = true
    ∧ (unfixGameWorker none none).error = some "No fix log found. Cannot un-fix."
    ∧ (unfixGameCall (some 7) "C:/game" none fsNoPaths).success = false :=
  ⟨(unfix_missing_log_reported_async 7 "C:/game" fsAllPaths fsNoPaths none
      (by decide) rfl rfl).1,
   (unfix_missing_log_reported_async 7 "C:/game" fsAllPaths fsNoPaths none
      (by decide) rfl rfl).2.2.2.1,
   (unfix_missing_log_reported_async 7 "C:/game" fsAllPaths fsNoPaths none
      (by decide) rfl rfl).2.2.2.2.2.2.1⟩

/-! ## Directive-disable transform -/

/-- Dropping a scanned-true prefix continues the scan on the remainder. -/
theorem dropWhile_append_of_all (p : Char → Bool) (a b : Chars)
    (h : ∀ c ∈ a, p c = true) :
    (a ++ b).dropWhile p = b.dropWhile p := by
  induction a with
  | nil => rfl
  | cons c t ih =>
    have hc := h c (List.mem_cons_self _ _)
    simpa [List.dropWhile_cons, hc] using ih (fun x hx => h x (List.mem_cons_of_mem _ hx))

/-- A commented-out line stays recognised as commented: after the maximal
whitespace run the inserted `--` is what the comment regex sees. -/
theorem matchesComment_commentOut (l : Chars) :
    matchesComment (commentOut l) = true := by
  unfold matchesComment commentOut
  rw [dropWhile_append_of_all _ _ _ (fun c hc => List.mem_takeWhile_imp hc)]
  have h1 : isPySpace '-' = false := rfl
  simp [List.dropWhile_cons, h1, List.isPrefixOf]

/-- The per-line directive transform is idempotent. -/
theorem processLine_idem (l : Chars) :
    processLine (processLine l) = processLine l := by
  by_cases h : (matchesDirective l && !matchesComment l) = true
  · have h1 : processLine l = commentOut l := by rw [processLine, if_pos h]
    rw [h1, processLine, if_neg (by simp [matchesComment_commentOut])]
  · have h1 : processLine l = l := by rw [processLine, if_neg h]
    rw [h1, h1]

/-- C5: the directive-disable transform comments out every line that invokes
`setManifestid(` and is not already commented, leaves already-commented
lines unchanged, and applying the transform to its own output returns that
output unchanged (no double-commenting). -/
theorem directive_disable_idempotent :
    (∀ l : Chars, (matchesDirective l && !matchesComment l) = true →
        processLine l = commentOut l)
    ∧ (∀ l : Chars, matchesComment l = true → processLine l = l)
    ∧ (∀ ls : List Chars, processLines (processLines ls) = processLines ls) := by
  refine ⟨fun l h => by rw [processLine, if_pos h],
    fun l h => by rw [processLine, if_neg (by simp [h])], fun ls => ?_⟩
  simp only [processLines, List.map_map]
  exact List.map_congr_left (fun a _ => processLine_idem a)

/-- C5 witness: a directive line gains the comment marker after its leading
whitespace, an already-commented directive line is untouched, and a second
pass over transformed lines changes nothing. -/
theorem directive_disable_idempotent_witness :
    processLine "  setManifestid(12345)".toList = "  --setManifestid(12345)".toList
    ∧ processLine "  --setManifestid(12345)".toList = "  --setManifestid(12345)".toList
    ∧ processLines (processLines ["  setManifestid(12345)".toList, "print(1)".toList])
        = processLines ["  setManifestid(12345)".toList, "print(1)".toList] :=
  ⟨by rw [directive_disable_idempotent.1 _ (by decide)]; decide,
   directive_disable_idempotent.2.1 _ (by decide),
   directive_disable_idempotent.2.2 _⟩

/-! ## Lua entry selection -/

/-- Unfolding equation for `selectLuaEntry`. -/
theorem selectLuaEntry_eq (appid : Nat) (names : List Chars) :
    selectLuaEntry appid names =
      match (names.filter (fun n => isNumericLua (pyBasename n))).find?
          (fun n => pyBasename n == (toString appid).toList ++ ".lua".toList) with
      | some c => .ok c
      | none =>
        match names.filter (fun n => isNumericLua (pyBasename n)) with
        | c :: _ => .ok c
        | [] => .error "No numeric .lua file found in zip" := rfl

/-- C6: among archive entries whose base name fully matches `\d+\.lua`, the
installer picks one whose digits spell the resource id when such an entry
exists, otherwise the first matching candidate in archive order, and with no
candidate at all it fails with the "no matching entry" error
(`"No numeric .lua file found in zip"`); any selected entry is an archive
entry matching the pattern. -/
theorem select_lua_entry_spec (appid : Nat) (names : List Chars) :
    ((∃ m ∈ names.filter (fun n => isNumericLua (pyBasename n)),
        pyBasename m = (toString appid).toList ++ ".lua".toList) →
      ∃ c, selectLuaEntry appid names = .ok c
        ∧ pyBasename c = (toString appid).toList ++ ".lua".toList
        ∧ c ∈ names ∧ isNumericLua (pyBasename c) = true)
    ∧ (∀ c0 cs, names.filter (fun n => isNumericLua (pyBasename n)) = c0 :: cs →
        (∀ m ∈ names.filter (fun n => isNumericLua (pyBasename n)),
          pyBasename m ≠ (toString appid).toList ++ ".lua".toList) →
        selectLuaEntry appid names = .ok c0)
    ∧ (names.filter (fun n => isNumericLua (pyBasename n)) = [] →
        selectLuaEntry appid names = .error "No numeric .lua file found in zip") := by
  refine ⟨?_, ?_, ?_⟩
  · rintro ⟨m, hm, hb⟩
    rcases hfind : (names.filter (fun n => isNumericLua (pyBasename n))).find?
        (fun n => pyBasename n == (toString appid).toList ++ ".lua".toList) with _ | c
    · exact absurd (by simpa using hb)
        (by simpa using List.find?_eq_none.mp hfind m hm)
    · refine ⟨c, ?_, ?_, ?_, ?_⟩
      · rw [selectLuaEntry_eq, hfind]
      · simpa using List.find?_some hfind
      · exact (List.mem_filter.mp (List.mem_of_find?_eq_some hfind)).1
      · exact (List.mem_filter.mp (List.mem_of_find?_eq_some hfind)).2
  · intro c0 cs hcands hnone
    have hfind : (names.filter (fun n => isNumericLua (pyBasename n))).find?
        (fun n => pyBasename n == (toString appid).toList ++ ".lua".toList) = none :=
      List.find?_eq_none.mpr (fun m hm => by simpa using hnone m hm)
    rw [selectLuaEntry_eq, hfind, hcands]
  · intro hcands
    rw [selectLuaEntry_eq, hcands]
    rfl

/-- C6 witness: with id 7 and entries `pack/8.lua`, `pack/007.lua` there is
no base name `7.lua`, so the first candidate wins; with no numeric lua entry
the installer errors. -/
theorem select_lua_entry_spec_witness :
    selectLuaEntry 7 ["pack/8.lua".toList, "pack/007.lua".toList]
      = .ok "pack/8.lua".toList
    ∧ selectLuaEntry 7 ["readme.txt".toList]
        = .error "No numeric .lua file found in zip" :=
  ⟨(select_lua_entry_spec 7 ["pack/8.lua".toList, "pack/007.lua".toList]).2.1
      "pack/8.lua".toList ["pack/007.lua".toList] (by decide) (by decide),
   (select_lua_entry_spec 7 ["readme.txt".toList]).2.2 (by decide)⟩

/-! ## Split/strip toolkit for the transaction-log proofs -/

/-- Unfolding: the scanner that finds the separator at the current position
emits the accumulated chunk and restarts after the separator. -/
theorem splitOnSubAux_cons_pos (sh : Char) (st : Chars) (c : Char) (rest acc : Chars)
    (h : (sh :: st).isPrefixOf (c :: rest) = true) :
    splitOnSubAux sh st (c :: rest) acc
      = acc.reverse :: splitOnSubAux sh st (rest.drop st.length) [] := by
  rw [splitOnSubAux, if_pos h]

/-- Unfolding: with no separator at the current position the scanner shifts
one character into the accumulator. -/
theorem splitOnSubAux_cons_neg (sh : Char) (st : Chars) (c : Char) (rest acc : Chars)
    (h : (sh :: st).isPrefixOf (c :: rest) = false) :
    splitOnSubAux sh st (c :: rest) acc
      = splitOnSubAux sh st rest (c :: acc) := by
  rw [splitOnSubAux, if_neg (by simp [h])]

/-- The scanner consumes an exact separator occurrence at the head. -/
theorem splitOnSubAux_consume (sh : Char) (st : Chars) (r acc : Chars) :
    splitOnSubAux sh st ((sh :: st) ++ r) acc
      = acc.reverse :: splitOnSubAux sh st r [] := by
  rw [List.cons_append,
    splitOnSubAux_cons_pos sh st sh (st ++ r) acc
      (List.isPrefixOf_iff_prefix.mpr ⟨r, by simp⟩),
    List.drop_left]

/-- The scanner walks through a segment free of the separator's head
character. -/
theorem splitOnSubAux_skip_seg (sh : Char) (st : Chars) (x r acc : Chars)
    (hx : sh ∉ x) :
    splitOnSubAux sh st (x ++ r) acc
      = splitOnSubAux sh st r (x.reverse ++ acc) := by
  induction x generalizing acc with
  | nil => simp
  | cons c t ih =>
    have hc : ¬ sh = c := fun he => hx (he ▸ List.mem_cons_self _ _)
    have hpre : ((sh :: st).isPrefixOf (c :: (t ++ r))) = false := by
      simp [List.isPrefixOf, hc]
    rw [List.cons_append, splitOnSubAux_cons_neg sh st c _ acc hpre,
      ih (c :: acc) (fun hm => hx (List.mem_cons_of_mem _ hm))]
    simp

/-- On text with no separator occurrence at all the scanner just flushes. -/
theorem splitOnSubAux_no_sep (sh : Char) (st : Chars) (x acc : Chars)
    (hx : ¬ (sh :: st) <:+: x) :
    splitOnSubAux sh st x acc = [acc.reverse ++ x] := by
  induction x generalizing acc with
  | nil => simp [splitOnSubAux]
  | cons c t ih =>
    have hpre : ((sh :: st).isPrefixOf (c :: t)) = false := by
      rw [← Bool.not_eq_true, List.isPrefixOf_iff_prefix]
      exact fun hp => hx hp.isInfix
    rw [splitOnSubAux_cons_neg sh st c t acc hpre,
      ih (c :: acc) (fun hinf => hx (List.infix_cons hinf))]
    simp

/-- A nonempty pattern whose head character does not occur in the text does
not occur in the text. -/
theorem not_infix_of_head_not_mem (sh : Char) (st x : Chars) (hx : sh ∉ x) :
    ¬ (sh :: st) <:+: x := by
  rintro ⟨s, t, rfl⟩
  exact hx (by simp)

/-- An occurrence in `c :: x` is an occurrence at the very front or an
occurrence in `x`. -/
theorem infix_cons_elim (sep : Chars) (c : Char) (x : Chars)
    (h : sep <:+: (c :: x)) : sep <+: (c :: x) ∨ sep <:+: x := by
  obtain ⟨s, t, hst⟩ := h
  cases s with
  | nil => exact Or.inl ⟨t, by simpa using hst⟩
  | cons a s2 =>
    right
    rw [List.cons_append, List.cons_append] at hst
    exact ⟨s2, t, by injection hst⟩

/-- `sep.join` distributes over a concatenation of nonempty part lists. -/
theorem pyJoin_append (sep : Chars) (a b : List Chars) (ha : a ≠ []) (hb : b ≠ []) :
    pyJoin sep (a ++ b) = pyJoin sep a ++ sep ++ pyJoin sep b := by
  induction a with
  | nil => exact absurd rfl ha
  | cons x t ih =>
    cases t with
    | nil =>
      cases b with
      | nil => exact absurd rfl hb
      | cons y t2 => simp [pyJoin]
    | cons y t2 =>
      have e1 : pyJoin sep ((x :: y :: t2) ++ b)
          = x ++ sep ++ pyJoin sep ((y :: t2) ++ b) := rfl
      have e2 : pyJoin sep (x :: y :: t2) = x ++ sep ++ pyJoin sep (y :: t2) := rfl
      rw [e1, e2, ih (by simp)]
      simp [List.append_assoc]

/-- A character outside the separator and every part is outside the join. -/
theorem not_mem_pyJoin (c : Char) (sep : Chars) (parts : List Chars)
    (hs : c ∉ sep) (hp : ∀ p ∈ parts, c ∉ p) :
    c ∉ pyJoin sep parts := by
  induction parts with
  | nil => simp [pyJoin]
  | cons x t ih =>
    cases t with
    | nil => exact hp x (List.mem_cons_self _ _)
    | cons y t2 =>
      rw [pyJoin]
      intro hm
      rcases List.mem_append.mp hm with hm1 | hm2
      · rcases List.mem_append.mp hm1 with hm3 | hm4
        · exact hp x (List.mem_cons_self _ _) hm3
        · exact hs hm4
      · exact ih (fun p hp2 => hp p (List.mem_cons_of_mem _ hp2)) hm2

/-- Splitting a newline-join on the newline recovers the lines. -/
theorem pySplit_join_newline (lines : List Chars) (hne : lines ≠ [])
    (h : ∀ l ∈ lines, '\n' ∉ l) :
    pySplit ['\n'] (pyJoin ['\n'] lines) = lines := by
  induction lines with
  | nil => exact absurd rfl hne
  | cons x t ih =>
    cases t with
    | nil =>
      show splitOnSubAux '\n' [] (pyJoin ['\n'] [x]) [] = [x]
      rw [pyJoin, splitOnSubAux_no_sep '\n' [] x []
        (not_infix_of_head_not_mem '\n' [] x (h x (List.mem_cons_self _ _)))]
      rfl
    | cons y t2 =>
      show splitOnSubAux '\n' [] (pyJoin ['\n'] (x :: y :: t2)) [] = x :: y :: t2
      rw [pyJoin]
      rw [List.append_assoc,
        splitOnSubAux_skip_seg '\n' [] x _ [] (h x (List.mem_cons_self _ _))]
      have hcons : ['\n'] ++ pyJoin ['\n'] (y :: t2)
          = ('\n' :: ([] : Chars)) ++ pyJoin ['\n'] (y :: t2) := rfl
      rw [hcons, splitOnSubAux_consume '\n' [] _ _]
      rw [List.append_nil, List.reverse_reverse]
      have := ih (by simp) (fun l hl => h l (List.mem_cons_of_mem _ hl))
      rw [show splitOnSubAux '\n' [] (pyJoin ['\n'] (y :: t2)) []
            = pySplit ['\n'] (pyJoin ['\n'] (y :: t2)) from rfl, this]

/-- `dropWhile` does not move past a head the predicate rejects. -/
theorem dropWhile_cons_of_false (p : Char → Bool) (c : Char) (t : Chars)
    (hc : p c = false) : (c :: t).dropWhile p = c :: t := by
  simp [List.dropWhile_cons, hc]

/-- `dropWhile` is the identity on a list whose elements it all rejects. -/
theorem dropWhile_eq_self_of_all (p : Char → Bool) (x : Chars)
    (h : ∀ c ∈ x, p c = false) : x.dropWhile p = x := by
  cases x with
  | nil => rfl
  | cons c t => exact dropWhile_cons_of_false p c t (h c (List.mem_cons_self _ _))

/-- `dropWhile` over a concatenation whose nonempty left part is already a
fixpoint stops immediately. -/
theorem dropWhile_append_fix (p : Char → Bool) (a b : Chars)
    (ha : a.dropWhile p = a) (hane : a ≠ []) :
    (a ++ b).dropWhile p = a ++ b := by
  cases a with
  | nil => exact absurd rfl hane
  | cons c t =>
    have hc : p c = false := by
      by_contra hcc
      have hc1 : p c = true := by
        cases hcp : p c with
        | false => exact absurd hcp hcc
        | true => rfl
      have : (c :: t).dropWhile p = t.dropWhile p := by simp [List.dropWhile_cons, hc1]
      have hlen : (t.dropWhile p).length ≤ t.length :=
        (List.dropWhile_suffix p).sublist.length_le
      rw [this] at ha
      have := congrArg List.length ha
      simp at this
      omega
    exact dropWhile_cons_of_false p c _ hc

/-- `dropWhile` over a concatenation whose nonempty right part is a fixpoint
leaves the right part intact. -/
theorem dropWhile_append_exists (p : Char → Bool) (a b : Chars)
    (hb : b.dropWhile p = b) :
    ∃ a1, (a ++ b).dropWhile p = a1 ++ b := by
  induction a with
  | nil => exact ⟨[], by simpa using hb⟩
  | cons c t ih =>
    cases hc : p c with
    | true =>
      obtain ⟨a1, ha1⟩ := ih
      exact ⟨a1, by simpa [List.dropWhile_cons, hc] using ha1⟩
    | false => exact ⟨c :: t, by simp [List.dropWhile_cons, hc]⟩

/-- A member the scan rejects keeps `dropWhile` from emptying the list. -/
theorem dropWhile_ne_nil_of_mem (p : Char → Bool) (y : Chars) (c : Char)
    (hc : c ∈ y) (hcp : p c = false) : y.dropWhile p ≠ [] := by
  induction y with
  | nil => cases hc
  | cons a t ih =>
    cases hpa : p a with
    | false => simp [List.dropWhile_cons, hpa]
    | true =>
      have hct : c ∈ t := by
        rcases List.mem_cons.mp hc with h | h
        · exact absurd (h ▸ hpa) (by simp [hcp])
        · exact h
      simpa [List.dropWhile_cons, hpa] using ih hct

/-- A string with no whitespace at either end is a `strip()` fixpoint. -/
theorem pyStrip_eq_self (s : Chars) (h : strippedStr s) : pyStrip s = s := by
  rw [pyStrip, h.1, h.2, List.reverse_reverse]

/-- A label line `c :: mid ++ d` with a non-whitespace head and a stripped
nonempty field `d` is a `strip()` fixpoint. -/
theorem pyStrip_label_field (c : Char) (mid d : Chars)
    (hc : isPySpace c = false) (hd2 : d.reverse.dropWhile isPySpace = d.reverse)
    (hdne : d ≠ []) :
    pyStrip (c :: mid ++ d) = c :: mid ++ d := by
  rw [pyStrip, List.cons_append,
    dropWhile_cons_of_false isPySpace c (mid ++ d) hc]
  have hrev : (c :: (mid ++ d)).reverse = d.reverse ++ (mid.reverse ++ [c]) := by
    simp
  rw [hrev, dropWhile_append_fix isPySpace d.reverse _ hd2 (by simpa using hdne)]
  simp

/-- A line with a nonempty whitespace-free prefix strips to that prefix
followed by some remainder of the tail. -/
theorem pyStrip_prefix_exists (p0 t : Chars) (hne : p0 ≠ [])
    (hp : ∀ c ∈ p0, isPySpace c = false) :
    ∃ t1, pyStrip (p0 ++ t) = p0 ++ t1 := by
  cases p0 with
  | nil => exact absurd rfl hne
  | cons c q =>
    rw [pyStrip, List.cons_append,
      dropWhile_cons_of_false isPySpace c (q ++ t) (hp c (List.mem_cons_self _ _))]
    have hrev : (c :: (q ++ t)).reverse = t.reverse ++ (c :: q).reverse := by simp
    have hfix : ((c :: q).reverse).dropWhile isPySpace = (c :: q).reverse :=
      dropWhile_eq_self_of_all isPySpace _ (fun x hx => hp x (List.mem_reverse.mp hx))
    obtain ⟨a1, ha1⟩ :=
      dropWhile_append_exists isPySpace t.reverse (c :: q).reverse hfix
    rw [hrev, ha1]
    exact ⟨a1.reverse, by simp⟩

/-- Text containing some non-whitespace character does not strip to empty. -/
theorem pyStrip_ne_nil (x : Chars) (c : Char) (hc : c ∈ x)
    (hcw : isPySpace c = false) : pyStrip x ≠ [] := by
  have hc1 : c ∈ x.dropWhile isPySpace := by
    have hsplit := List.takeWhile_append_dropWhile isPySpace x
    rcases List.mem_append.mp (hsplit ▸ hc) with h | h
    · exact absurd (List.mem_takeWhile_imp h) (by simp [hcw])
    · exact h
  have hc2 : c ∈ (x.dropWhile isPySpace).reverse := List.mem_reverse.mpr hc1
  have := dropWhile_ne_nil_of_mem isPySpace _ c hc2 hcw
  rw [pyStrip]
  simpa using this

/-- Lists differing at the head compare `==`-false. -/
theorem beq_chars_false_head (a : Char) (x : Chars) (b : Char) (y : Chars)
    (h : a ≠ b) : ((a :: x) == (b :: y)) = false :=
  beq_eq_false_iff_ne.mpr (by simp [h])

/-- Lists differing at the third element compare `==`-false. -/
theorem beq_chars_false_third (a1 a2 a3 : Char) (x : Chars) (b1 b2 b3 : Char)
    (y : Chars) (h : a3 ≠ b3) :
    ((a1 :: a2 :: a3 :: x) == (b1 :: b2 :: b3 :: y)) = false :=
  beq_eq_false_iff_ne.mpr (by simp [h])

/-- Unequal lists compare `==`-false. -/
theorem beq_chars_false_of_ne (x y : Chars) (h : x ≠ y) : (x == y) = false :=
  beq_eq_false_iff_ne.mpr h

/-- A pattern whose head differs is not a Boolean prefix. -/
theorem isPrefixOf_false_head (a : Char) (x : Chars) (b : Char) (y : Chars)
    (h : a ≠ b) : ((a :: x).isPrefixOf (b :: y)) = false := by
  rw [← Bool.not_eq_true, List.isPrefixOf_iff_prefix]
  intro hp
  obtain ⟨t, ht⟩ := hp
  rw [List.cons_append] at ht
  exact h (by injection ht)

/-- A pattern whose second character differs is not a Boolean prefix. -/
theorem isPrefixOf_false_second (a1 a2 : Char) (x : Chars) (b1 b2 : Char)
    (y : Chars) (h : a2 ≠ b2) :
    ((a1 :: a2 :: x).isPrefixOf (b1 :: b2 :: y)) = false := by
  rw [← Bool.not_eq_true, List.isPrefixOf_iff_prefix]
  intro hp
  obtain ⟨t, ht⟩ := hp
  rw [List.cons_append, List.cons_append] at ht
  have ht2 := (List.cons.injEq _ _ _ _ ▸ ht).2
  exact h (by injection ht2)

/-- A non-prefix in the propositional sense is a Boolean non-prefix. -/
theorem isPrefixOf_false_of_not_prefix (x y : Chars) (h : ¬ x <+: y) :
    x.isPrefixOf y = false := by
  rw [← Bool.not_eq_true, List.isPrefixOf_iff_prefix]
  exact h

/-- Prefixes are recognised by the Boolean test. -/
theorem isPrefixOf_self_append (l r : Chars) : l.isPrefixOf (l ++ r) = true :=
  List.isPrefixOf_iff_prefix.mpr ⟨r, rfl⟩

/-! ## Block scanner step lemmas -/

/-- A line stripping to `[/FIX]` or `---` stops the block scan. -/
theorem scanBlockLines_break (fd : Option Chars) (l : Chars) (rest : List Chars)
    (acc : BlockScan) (h : pyStrip l = "[/FIX]".toList ∨ pyStrip l = "---".toList) :
    scanBlockLines fd (l :: rest) acc = acc := by
  rcases h with h | h <;> simp [scanBlockLines, h]

/-- A blank line is recorded in `block_lines` and otherwise skipped,
whatever the current section state. -/
theorem scanBlockLines_blank (fd : Option Chars) (l : Chars) (rest : List Chars)
    (acc : BlockScan) (h : pyStrip l = []) :
    scanBlockLines fd (l :: rest) acc
      = scanBlockLines fd rest { acc with blockLines := acc.blockLines ++ [l] } := by
  have h1 : (([] : Chars) == "[/FIX]".toList) = false := rfl
  have h2 : (([] : Chars) == "---".toList) = false := rfl
  have h3 : ("Date:".toList.isPrefixOf ([] : Chars)) = false := rfl
  have h4 : (([] : Chars) == "Files:".toList) = false := rfl
  simp [scanBlockLines, h, h1, h2, h3, h4]

/-- A `Date:`-prefixed line (outside the files section) records the parsed
block date and the raw line. -/
theorem scanBlockLines_date (fd : Option Chars) (l : Chars) (rest : List Chars)
    (acc : BlockScan) (m : Chars) (hs : pyStrip l = "Date:".toList ++ m)
    (hin : acc.inFiles = false) :
    scanBlockLines fd (l :: rest) acc
      = scanBlockLines fd rest
          { acc with
            blockDate :=
              some (pyStrip (pyReplace "Date:".toList [] ("Date:".toList ++ m))),
            blockLines := acc.blockLines ++ [l] } := by
  have h1 : (("Date:".toList ++ m) == "[/FIX]".toList) = false :=
    beq_chars_false_head 'D' ("ate:".toList ++ m) '[' "/FIX]".toList (by decide)
  have h2 : (("Date:".toList ++ m) == "---".toList) = false :=
    beq_chars_false_head 'D' ("ate:".toList ++ m) '-' "--".toList (by decide)
  have h3 : ("Date:".toList.isPrefixOf ("Date:".toList ++ m)) = true :=
    isPrefixOf_self_append _ _
  have h4 : (("Date:".toList ++ m) == "Files:".toList) = false :=
    beq_chars_false_head 'D' ("ate:".toList ++ m) 'F' "iles:".toList (by decide)
  simp [scanBlockLines, hs, h1, h2, h3, h4, hin]

/-- A metadata line that is no marker, no date and no section opener is just
recorded, outside the files section. -/
theorem scanBlockLines_meta (fd : Option Chars) (l : Chars) (rest : List Chars)
    (acc : BlockScan)
    (h1 : pyStrip l ≠ "[/FIX]".toList)
    (h2 : pyStrip l ≠ "---".toList)
    (h3 : ¬ "Date:".toList <+: pyStrip l)
    (h4 : pyStrip l ≠ "Files:".toList)
    (hin : acc.inFiles = false) :
    scanBlockLines fd (l :: rest) acc
      = scanBlockLines fd rest { acc with blockLines := acc.blockLines ++ [l] } := by
  simp at h1 h2 h3 h4
  simp [scanBlockLines, h1, h2, h3, h4, hin]

/-- The `Files:` line opens the files section. -/
theorem scanBlockLines_filesOpen (fd : Option Chars) (l : Chars)
    (rest : List Chars) (acc : BlockScan) (hs : pyStrip l = "Files:".toList) :
    scanBlockLines fd (l :: rest) acc
      = scanBlockLines fd rest
          { acc with blockLines := acc.blockLines ++ [l], inFiles := true } := by
  have h1 : ("Files:".toList == "[/FIX]".toList) = false := rfl
  have h2 : ("Files:".toList == "---".toList) = false := rfl
  have h3 : ("Date:".toList.isPrefixOf "Files:".toList) = false := rfl
  have h4 : ("Files:".toList == "Files:".toList) = true := rfl
  simp [scanBlockLines, hs, h1, h2, h3, h4]

/-- A nonblank non-structural line inside the files section is recorded and
collected exactly when the date filter admits the current block. -/
theorem scanBlockLines_file (fd : Option Chars) (l : Chars) (rest : List Chars)
    (acc : BlockScan)
    (h1 : pyStrip l ≠ "[/FIX]".toList)
    (h2 : pyStrip l ≠ "---".toList)
    (h3 : ¬ "Date:".toList <+: pyStrip l)
    (h4 : pyStrip l ≠ "Files:".toList)
    (hin : acc.inFiles = true) (hne : pyStrip l ≠ []) :
    scanBlockLines fd (l :: rest) acc
      = scanBlockLines fd rest
          { acc with blockLines := acc.blockLines ++ [l],
                     collected :=
                       if collectHere fd acc.blockDate
                       then acc.collected ++ [pyStrip l] else acc.collected } := by
  simp at h1 h2 h3 h4
  by_cases hc : collectHere fd acc.blockDate = true
  · simp [scanBlockLines, h1, h2, h3, h4, hin, hne, hc]
  · simp only [Bool.not_eq_true] at hc
    simp [scanBlockLines, h1, h2, h3, h4, hin, hne, hc]

/-- A run of blank lines is recorded wholesale. -/
theorem scanBlockLines_blanks (fd : Option Chars) (pre rest : List Chars)
    (acc : BlockScan) (hpre : ∀ l ∈ pre, pyStrip l = []) :
    scanBlockLines fd (pre ++ rest) acc
      = scanBlockLines fd rest { acc with blockLines := acc.blockLines ++ pre } := by
  induction pre generalizing acc with
  | nil => simp
  | cons l t ih =>
    rw [List.cons_append,
      scanBlockLines_blank fd l _ acc (hpre l (List.mem_cons_self _ _)),
      ih _ (fun x hx => hpre x (List.mem_cons_of_mem _ hx))]
    simp

/-- The files loop: well-formed file lines are all recorded and, when the
date filter admits the block, all collected; the section and date state are
unchanged. -/
theorem scanBlockLines_files_loop (fd : Option Chars) (files rest : List Chars)
    (acc : BlockScan) (hf : ∀ f ∈ files, wfFile f) (hin : acc.inFiles = true) :
    scanBlockLines fd (files ++ rest) acc
      = scanBlockLines fd rest
          { acc with blockLines := acc.blockLines ++ files,
                     collected := acc.collected ++
                       (if collectHere fd acc.blockDate then files else []) } := by
  induction files generalizing acc with
  | nil =>
    have : (if collectHere fd acc.blockDate then ([] : List Chars) else []) = [] :=
      ite_self []
    simp [this]
  | cons f t ih =>
    obtain ⟨⟨hnl, hbr, hstp, hne⟩, hdash, hfl, hdp⟩ := hf f (List.mem_cons_self _ _)
    have hstrip : pyStrip f = f := pyStrip_eq_self f hstp
    have h1 : pyStrip f ≠ "[/FIX]".toList := by
      rw [hstrip]
      exact fun he => hbr (he ▸ (by decide : '[' ∈ "[/FIX]".toList))
    have h2 : pyStrip f ≠ "---".toList := by rw [hstrip]; exact hdash
    have h3 : ¬ "Date:".toList <+: pyStrip f := by rw [hstrip]; exact hdp
    have h4 : pyStrip f ≠ "Files:".toList := by rw [hstrip]; exact hfl
    have hne2 : pyStrip f ≠ [] := by rw [hstrip]; exact hne
    rw [List.cons_append,
      scanBlockLines_file fd f _ acc h1 h2 h3 h4 hin hne2,
      ih { blockDate := acc.blockDate, blockLines := acc.blockLines ++ [f],
           inFiles := acc.inFiles,
           collected :=
             if collectHere fd acc.blockDate
             then acc.collected ++ [pyStrip f] else acc.collected }
        (fun x hx => hf x (List.mem_cons_of_mem _ hx)) hin]
    by_cases hc : collectHere fd acc.blockDate = true
    · simp [hc, hstrip, List.append_assoc]
    · simp only [Bool.not_eq_true] at hc
      simp [hc, List.append_assoc]

/-- Lists whose heads differ are different. -/
theorem head_mismatch (x y : Chars) (a b : Char) (ha : x.head? = some a)
    (hb : y.head? = some b) (hab : a ≠ b) : x ≠ y := by
  intro he
  rw [he, hb] at ha
  exact hab (Option.some_injective Char ha.symm)

/-- Lists differing at position `n` are different. -/
theorem drop_head_mismatch (x y : Chars) (n : Nat) (a b : Char)
    (ha : (x.drop n).head? = some a) (hb : (y.drop n).head? = some b)
    (hab : a ≠ b) : x ≠ y := by
  intro he
  rw [he, hb] at ha
  exact hab (Option.some_injective Char ha.symm)

/-- What `line_stripped.replace("Date:", "").strip()` computes on the date
line of a well-formed block: the block date itself. -/
theorem dateValue_eval (d : Chars) (hstp : strippedStr d)
    (hinf : ¬ "Date:".toList <:+: d) :
    pyStrip (pyReplace "Date:".toList [] ("Date:".toList ++ (' ' :: d))) = d := by
  have hnoinf : ¬ ('D' :: "ate:".toList) <:+: (' ' :: d) := by
    intro hinf2
    rcases infix_cons_elim _ _ _ hinf2 with hp | hi
    · obtain ⟨t, ht⟩ := hp
      rw [List.cons_append] at ht
      exact absurd (show 'D' = ' ' by injection ht) (by decide)
    · exact hinf hi
  have hsplit : pySplit "Date:".toList ("Date:".toList ++ (' ' :: d))
      = [[], ' ' :: d] := by
    show splitOnSubAux 'D' "ate:".toList
      (('D' :: "ate:".toList) ++ (' ' :: d)) [] = [[], ' ' :: d]
    rw [splitOnSubAux_consume 'D' "ate:".toList (' ' :: d) [],
      splitOnSubAux_no_sep 'D' "ate:".toList (' ' :: d) [] hnoinf]
    rfl
  rw [pyReplace, hsplit]
  show pyStrip ([] ++ [] ++ (' ' :: d)) = d
  have hdrop : (' ' :: d).dropWhile isPySpace = d := by
    rw [List.dropWhile_cons]
    simp [isPySpace, hstp.1]
  rw [List.nil_append, List.nil_append, pyStrip, hdrop, hstp.2,
    List.reverse_reverse]

/-- Scanning one serialized block body (optionally preceded by blank lines)
computes the block date, records every line before the terminator, opens the
files section and collects exactly the block's files when the date filter
admits it. -/
theorem scanBlockLines_block (fd : Option Chars) (pre : List Chars)
    (r : FixRecord) (rest : List Chars) (hr : wfRecord r)
    (hpre : ∀ l ∈ pre, pyStrip l = []) :
    scanBlockLines fd (pre ++ (blockBodyLines r ++ ("[/FIX]".toList :: rest)))
        initBlockScan
      = { blockDate := some r.date,
          blockLines := pre ++ blockBodyLines r,
          inFiles := true,
          collected := if collectHere fd (some r.date) then r.files else [] } := by
  obtain ⟨⟨⟨hdnl, hdbr, hdstp, hdne⟩, hdinf⟩, hg, ht, hu, hfls⟩ := hr
  have hdate : pyStrip ("Date: ".toList ++ r.date) = "Date: ".toList ++ r.date :=
    pyStrip_label_field 'D' "ate: ".toList r.date rfl hdstp.2 hdne
  have hgame : pyStrip ("Game: ".toList ++ r.game) = "Game: ".toList ++ r.game :=
    pyStrip_label_field 'G' "ame: ".toList r.game rfl hg.2.2.1.2 hg.2.2.2
  have htyp : pyStrip ("Fix Type: ".toList ++ r.fixType)
      = "Fix Type: ".toList ++ r.fixType :=
    pyStrip_label_field 'F' "ix Type: ".toList r.fixType rfl ht.2.2.1.2 ht.2.2.2
  have hurl : pyStrip ("Download URL: ".toList ++ r.url)
      = "Download URL: ".toList ++ r.url :=
    pyStrip_label_field 'D' "ownload URL: ".toList r.url rfl hu.2.2.1.2 hu.2.2.2
  rw [scanBlockLines_blanks fd pre _ initBlockScan hpre]
  show scanBlockLines fd
      (("Date: ".toList ++ r.date) ::
        ("Game: ".toList ++ r.game) ::
        ("Fix Type: ".toList ++ r.fixType) ::
        ("Download URL: ".toList ++ r.url) ::
        "Files:".toList :: (r.files ++ ("[/FIX]".toList :: rest)))
      { initBlockScan with blockLines := initBlockScan.blockLines ++ pre } = _
  rw [scanBlockLines_date fd _ _ _ (' ' :: r.date)
    (by rw [show ("Date: ".toList ++ r.date : Chars)
          = "Date:".toList ++ (' ' :: r.date) from rfl] at hdate ⊢; exact hdate)
    rfl]
  rw [dateValue_eval r.date hdstp hdinf]
  rw [scanBlockLines_meta fd _ _ _
    (by rw [hgame]; exact head_mismatch _ _ 'G' '[' rfl rfl (by decide))
    (by rw [hgame]; exact head_mismatch _ _ 'G' '-' rfl rfl (by decide))
    (by rw [hgame]
        rintro ⟨t2, ht2⟩
        exact head_mismatch ("Date:".toList ++ t2) ("Game: ".toList ++ r.game)
          'D' 'G' rfl rfl (by decide) ht2)
    (by rw [hgame]; exact head_mismatch _ _ 'G' 'F' rfl rfl (by decide))
    rfl]
  rw [scanBlockLines_meta fd _ _ _
    (by rw [htyp]; exact head_mismatch _ _ 'F' '[' rfl rfl (by decide))
    (by rw [htyp]; exact head_mismatch _ _ 'F' '-' rfl rfl (by decide))
    (by rw [htyp]
        rintro ⟨t2, ht2⟩
        exact head_mismatch ("Date:".toList ++ t2)
          ("Fix Type: ".toList ++ r.fixType) 'D' 'F' rfl rfl (by decide) ht2)
    (by rw [htyp]; exact drop_head_mismatch _ _ 2 'x' 'l' rfl rfl (by decide))
    rfl]
  rw [scanBlockLines_meta fd _ _ _
    (by rw [hurl]; exact head_mismatch _ _ 'D' '[' rfl rfl (by decide))
    (by rw [hurl]; exact head_mismatch _ _ 'D' '-' rfl rfl (by decide))
    (by rw [hurl]
        rintro ⟨t2, ht2⟩
        exact drop_head_mismatch ("Date:".toList ++ t2)
          ("Download URL: ".toList ++ r.url) 1 'a' 'o' rfl rfl (by decide) ht2)
    (by rw [hurl]; exact head_mismatch _ _ 'D' 'F' rfl rfl (by decide))
    rfl]
  rw [scanBlockLines_filesOpen fd "Files:".toList _ _ rfl]
  rw [scanBlockLines_files_loop fd r.files _ _ hfls rfl]
  rw [scanBlockLines_break fd "[/FIX]".toList rest _ (Or.inl rfl)]
  simp [initBlockScan, blockBodyLines, List.append_assoc]

/-! ## Splitting the serialized log on the block marker -/

/-- The scanner flushes on empty input. -/
theorem splitOnSubAux_nil (sh : Char) (st acc : Chars) :
    splitOnSubAux sh st [] acc = [acc.reverse] := by
  rw [splitOnSubAux]

/-- A character outside every label and every field of a well-formed record
appears in no body line. -/
theorem notin_bodyLines (r : FixRecord) (c : Char)
    (hl1 : c ∉ "Date: ".toList) (hl2 : c ∉ "Game: ".toList)
    (hl3 : c ∉ "Fix Type: ".toList) (hl4 : c ∉ "Download URL: ".toList)
    (hl5 : c ∉ "Files:".toList)
    (hf1 : c ∉ r.date) (hf2 : c ∉ r.game) (hf3 : c ∉ r.fixType)
    (hf4 : c ∉ r.url) (hf5 : ∀ f ∈ r.files, c ∉ f) :
    ∀ p ∈ blockBodyLines r, c ∉ p := by
  intro p hp
  simp only [blockBodyLines, List.mem_cons] at hp
  rcases hp with rfl | rfl | rfl | rfl | rfl | hmem
  · exact fun hm => (List.mem_append.mp hm).elim hl1 hf1
  · exact fun hm => (List.mem_append.mp hm).elim hl2 hf2
  · exact fun hm => (List.mem_append.mp hm).elim hl3 hf3
  · exact fun hm => (List.mem_append.mp hm).elim hl4 hf4
  · exact hl5
  · exact hf5 p hmem

/-- The bracket character is confined to the `[/FIX]` terminator inside a
serialized block tail, so the marker scanner walks through it without
cutting. -/
theorem splitOnSubAux_skip_blockTail (r : FixRecord) (hr : wfRecord r)
    (rest acc : Chars) :
    splitOnSubAux '[' "FIX]".toList (blockTail r ++ rest) acc
      = splitOnSubAux '[' "FIX]".toList rest ((blockTail r).reverse ++ acc) := by
  obtain ⟨⟨⟨hdnl, hdbr, hdstp, hdne⟩, hdinf⟩, hg, ht, hu, hfls⟩ := hr
  have hbody : '[' ∉ pyJoin ['\n'] (blockBodyLines r) :=
    not_mem_pyJoin '[' ['\n'] (blockBodyLines r) (by decide)
      (notin_bodyLines r '[' (by decide) (by decide) (by decide) (by decide)
        (by decide) hdbr hg.2.1 ht.2.1 hu.2.1 (fun f hf => (hfls f hf).1.2.1))
  have hpre1 : '[' ∉ ('\n' :: pyJoin ['\n'] (blockBodyLines r) ++ ['\n']) := by
    intro hm
    rcases List.mem_cons.mp hm with he | hm2
    · exact absurd he (by decide)
    · rcases List.mem_append.mp hm2 with hm3 | hm4
      · exact hbody hm3
      · exact absurd hm4 (by decide)
  have hshape : blockTail r ++ rest
      = ('\n' :: pyJoin ['\n'] (blockBodyLines r) ++ ['\n'])
        ++ ('[' :: ("/FIX]\n".toList ++ rest)) := by
    simp [blockTail, List.append_assoc]
  rw [hshape, splitOnSubAux_skip_seg '[' "FIX]".toList _ _ acc hpre1]
  have hpref : (('[' :: "FIX]".toList).isPrefixOf
      ('[' :: ("/FIX]\n".toList ++ rest))) = false := by
    show (('[' == '[') &&
      ("FIX]".toList.isPrefixOf ('/' :: ("FIX]\n".toList ++ rest)))) = false
    rw [show ("FIX]".toList : Chars) = 'F' :: "IX]".toList from rfl,
      isPrefixOf_false_head 'F' "IX]".toList '/' ("FIX]\n".toList ++ rest)
        (by decide)]
    simp
  rw [splitOnSubAux_cons_neg '[' "FIX]".toList '[' _ _ hpref]
  rw [splitOnSubAux_skip_seg '[' "FIX]".toList "/FIX]\n".toList rest _ (by decide)]
  have haccs : "/FIX]\n".toList.reverse
        ++ ('[' :: (('\n' :: pyJoin ['\n'] (blockBodyLines r) ++ ['\n']).reverse ++ acc))
      = (blockTail r).reverse ++ acc := by
    simp [blockTail, List.append_assoc]
  rw [haccs]

/-- Splitting the three-block serialized log on `[FIX]` yields the empty
leading fragment and the three block fragments. -/
theorem pySplit_fix_serializeThree (r1 r2 r3 : FixRecord)
    (h1 : wfRecord r1) (h2 : wfRecord r2) (h3 : wfRecord r3) :
    pySplit "[FIX]".toList (serializeThree r1 r2 r3)
      = [[], blockTail r1 ++ "\n---\n\n".toList,
          blockTail r2 ++ "\n---\n\n".toList, blockTail r3] := by
  show splitOnSubAux '[' "FIX]".toList (serializeThree r1 r2 r3) [] = _
  rw [serializeThree]
  simp only [List.append_assoc]
  rw [show ("[FIX]".toList : Chars) = '[' :: "FIX]".toList from rfl]
  rw [splitOnSubAux_consume]
  rw [splitOnSubAux_skip_blockTail r1 h1]
  rw [splitOnSubAux_skip_seg '[' "FIX]".toList "\n---\n\n".toList _ _ (by decide)]
  rw [splitOnSubAux_consume]
  rw [splitOnSubAux_skip_blockTail r2 h2]
  rw [splitOnSubAux_skip_seg '[' "FIX]".toList "\n---\n\n".toList _ _ (by decide)]
  rw [splitOnSubAux_consume]
  rw [show blockTail r3 = blockTail r3 ++ [] from (List.append_nil _).symm]
  rw [splitOnSubAux_skip_blockTail r3 h3]
  rw [splitOnSubAux_nil]
  simp

/-! ## Fragments as line lists -/

/-- A mid-log fragment (block tail followed by the `---` separator) is the
newline-join of its lines: a leading blank, the body lines, the terminator
line, and the blank/`---`/blank/blank lines the separator contributes. -/
theorem blockTail_sep_lines (r : FixRecord) :
    blockTail r ++ "\n---\n\n".toList
      = pyJoin ['\n'] ([([] : Chars)] ++ (blockBodyLines r
          ++ ("[/FIX]".toList :: [([] : Chars), "---".toList, [], []]))) := by
  have hbody_ne : blockBodyLines r ≠ [] := by simp [blockBodyLines]
  rw [pyJoin_append ['\n'] [[]] _ (by simp) (by simp [hbody_ne]),
    pyJoin_append ['\n'] (blockBodyLines r) _ hbody_ne (by simp)]
  simp [blockTail, pyJoin, List.append_assoc]

/-- The final fragment (bare block tail) is the newline-join of a leading
blank, the body lines, the terminator line and a trailing blank. -/
theorem blockTail_lines (r : FixRecord) :
    blockTail r
      = pyJoin ['\n'] ([([] : Chars)] ++ (blockBodyLines r
          ++ ("[/FIX]".toList :: [([] : Chars)]))) := by
  have hbody_ne : blockBodyLines r ≠ [] := by simp [blockBodyLines]
  rw [pyJoin_append ['\n'] [[]] _ (by simp) (by simp [hbody_ne]),
    pyJoin_append ['\n'] (blockBodyLines r) _ hbody_ne (by simp)]
  simp [blockTail, pyJoin, List.append_assoc]

/-- No line of a serialized block fragment contains a newline. -/
theorem fragment_lines_newline_free (r : FixRecord) (hr : wfRecord r)
    (tl : List Chars) (htl : ∀ l ∈ tl, '\n' ∉ l) :
    ∀ l ∈ [([] : Chars)] ++ (blockBodyLines r ++ ("[/FIX]".toList :: tl)),
      '\n' ∉ l := by
  obtain ⟨⟨⟨hdnl, hdbr, hdstp, hdne⟩, hdinf⟩, hg, ht, hu, hfls⟩ := hr
  have hbody : ∀ p ∈ blockBodyLines r, '\n' ∉ p :=
    notin_bodyLines r '\n' (by decide) (by decide) (by decide) (by decide)
      (by decide) hdnl hg.1 ht.1 hu.1 (fun f hf => (hfls f hf).1.1)
  intro l hl
  rcases List.mem_append.mp hl with h | h
  · rcases List.mem_cons.mp h with rfl | h2
    · simp
    · cases h2
  · rcases List.mem_append.mp h with h | h
    · exact hbody l h
    · rcases List.mem_cons.mp h with rfl | h2
      · decide
      · exact htl l h2

/-- The whitespace character used by `pyStrip_ne_nil` on fragments: the
slash of the `[/FIX]` terminator is in every block tail. -/
theorem slash_mem_blockTail (r : FixRecord) : '/' ∈ blockTail r := by
  rw [blockTail]
  exact List.mem_cons_of_mem _
    (List.mem_append.mpr (Or.inr (by decide)))

/-! ## Evaluating the per-block step on serialized fragments -/

/-- The step ignores blank fragments. -/
theorem unfixBlockStep_blank (fd : Option Chars)
    (acc : List Chars × List Chars) (b : Chars) (h : pyStrip b = []) :
    unfixBlockStep fd acc b = acc := by
  simp [unfixBlockStep, h]

/-- The step on a mid-log fragment: delete-set entries grow by the block's
files exactly when the date filter admits the block, and the retained list
grows by the block's re-serialization exactly when the filter retains it. -/
theorem unfixBlockStep_mid (fd : Option Chars) (acc : List Chars × List Chars)
    (r : FixRecord) (hr : wfRecord r) :
    unfixBlockStep fd acc (blockTail r ++ "\n---\n\n".toList)
      = (acc.1 ++ (if collectHere fd (some r.date) then r.files else []),
         if retainBlock fd (some r.date)
         then acc.2 ++ [reserializeBlock (([] : Chars) :: blockBodyLines r)]
         else acc.2) := by
  have hne : pyStrip (blockTail r ++ "\n---\n\n".toList) ≠ [] :=
    pyStrip_ne_nil _ '/'
      (List.mem_append.mpr (Or.inl (slash_mem_blockTail r))) (by decide)
  have hlines : pySplit ['\n'] (blockTail r ++ "\n---\n\n".toList)
      = [([] : Chars)] ++ (blockBodyLines r
          ++ ("[/FIX]".toList :: [([] : Chars), "---".toList, [], []])) := by
    rw [blockTail_sep_lines r]
    exact pySplit_join_newline _ (by simp)
      (fragment_lines_newline_free r hr _ (by decide))
  rw [unfixBlockStep, if_neg (fun hh => hne (List.isEmpty_iff.mp hh))]
  rw [hlines, scanBlockLines_block fd [([] : Chars)] r _ hr (by simp [pyStrip])]
  simp

/-- The step on the final fragment of the log. -/
theorem unfixBlockStep_last (fd : Option Chars) (acc : List Chars × List Chars)
    (r : FixRecord) (hr : wfRecord r) :
    unfixBlockStep fd acc (blockTail r)
      = (acc.1 ++ (if collectHere fd (some r.date) then r.files else []),
         if retainBlock fd (some r.date)
         then acc.2 ++ [reserializeBlock (([] : Chars) :: blockBodyLines r)]
         else acc.2) := by
  have hne : pyStrip (blockTail r) ≠ [] :=
    pyStrip_ne_nil _ '/' (slash_mem_blockTail r) (by decide)
  have hlines : pySplit ['\n'] (blockTail r)
      = [([] : Chars)] ++ (blockBodyLines r
          ++ ("[/FIX]".toList :: [([] : Chars)])) := by
    rw [blockTail_lines r]
    exact pySplit_join_newline _ (by simp)
      (fragment_lines_newline_free r hr _ (by decide))
  rw [unfixBlockStep, if_neg (fun hh => hne (List.isEmpty_iff.mp hh))]
  rw [hlines, scanBlockLines_block fd [([] : Chars)] r _ hr (by simp [pyStrip])]
  simp

/-- C2: on a transaction log holding three well-formed `[FIX]` blocks with
dates D1, D2, D3 (D1, D3 distinct from D2), `unfix` with `fixDate = D2` puts
exactly the files listed in the D2 block into the delete set and rewrites
the log as the D1 block followed by the D3 block, each retained as a
complete `[FIX]…[/FIX]` block carrying its original body lines (the
re-serialization keeps the blank line the parser saw after each marker),
joined by the `---` delimiter; the worker ends with status `done`. -/
theorem unfix_selective_by_date (r1 r2 r3 : FixRecord)
    (h1 : wfRecord r1) (h2 : wfRecord r2) (h3 : wfRecord r3)
    (h12 : r1.date ≠ r2.date) (h32 : r3.date ≠ r2.date) :
    unfixGameWorker (some (serializeThree r1 r2 r3)) (some r2.date)
      = { status := "done", error := none,
          deleteSet := r2.files,
          logAction := .rewrite
            (reserializeBlock (([] : Chars) :: blockBodyLines r1)
              ++ "\n\n---\n\n".toList
              ++ reserializeBlock (([] : Chars) :: blockBodyLines r3)) } := by
  have hd1ne : r1.date ≠ [] := h1.1.1.2.2.2
  have hd2ne : r2.date ≠ [] := h2.1.1.2.2.2
  have hd3ne : r3.date ≠ [] := h3.1.1.2.2.2
  have hcontains : containsSub "[FIX]".toList (serializeThree r1 r2 r3) = true := by
    rw [containsSub, pySplit_fix_serializeThree r1 r2 r3 h1 h2 h3]
    rfl
  have hcol1 : collectHere (some r2.date) (some r1.date) = false := by
    simp [collectHere, beq_chars_false_of_ne _ _ h12]
  have hcol2 : collectHere (some r2.date) (some r2.date) = true := by
    simp [collectHere, List.isEmpty_iff, hd2ne]
  have hcol3 : collectHere (some r2.date) (some r3.date) = false := by
    simp [collectHere, beq_chars_false_of_ne _ _ h32]
  have hret1 : retainBlock (some r2.date) (some r1.date) = true := by
    simp [retainBlock, List.isEmpty_iff, hd1ne, h12]
  have hret2 : retainBlock (some r2.date) (some r2.date) = false := by
    simp [retainBlock]
  have hret3 : retainBlock (some r2.date) (some r3.date) = true := by
    simp [retainBlock, List.isEmpty_iff, hd3ne, h32]
  rw [unfixGameWorker, parseUnfixLog, if_pos hcontains,
    pySplit_fix_serializeThree r1 r2 r3 h1 h2 h3,
    List.foldl_cons, unfixBlockStep_blank _ _ [] rfl,
    List.foldl_cons, unfixBlockStep_mid _ _ r1 h1,
    List.foldl_cons, unfixBlockStep_mid _ _ r2 h2,
    List.foldl_cons, unfixBlockStep_last _ _ r3 h3,
    List.foldl_nil, hcol1, hret1, hcol2, hret2, hcol3, hret3]
  simp [pyJoin]

/-- C2 witness: the concrete three-record log with `fixDate` the middle
record's date deletes exactly that record's file and rewrites the log to the
first and third blocks. -/
theorem unfix_selective_by_date_witness :
    unfixGameWorker (some (serializeThree recD1 recD2 recD3)) (some recD2.date)
      = { status := "done", error := none,
          deleteSet := recD2.files,
          logAction := .rewrite
            (reserializeBlock (([] : Chars) :: blockBodyLines recD1)
              ++ "\n\n---\n\n".toList
              ++ reserializeBlock (([] : Chars) :: blockBodyLines recD3)) } :=
  unfix_selective_by_date recD1 recD2 recD3
    (by simp only [wfRecord, wfDate, wfField, wfFile, strippedStr]; decide)
    (by simp only [wfRecord, wfDate, wfField, wfFile, strippedStr]; decide)
    (by simp only [wfRecord, wfDate, wfField, wfFile, strippedStr]; decide)
    (by decide) (by decide)

/-! ## Legacy (marker-less) log removal -/

/-- Header lines that do not strip to the section opener are skipped by the
legacy scan while the files section is closed. -/
theorem legacyScan_skip_headers (hdr rest : List Chars) (acc : List Chars)
    (hh : ∀ l ∈ hdr, pyStrip l ≠ "Files:".toList) :
    legacyScan (hdr ++ rest) false acc = legacyScan rest false acc := by
  induction hdr with
  | nil => rfl
  | cons l t ih =>
    have hne := hh l (List.mem_cons_self _ _)
    rw [List.cons_append]
    rw [show legacyScan (l :: (t ++ rest)) false acc
        = legacyScan (t ++ rest) false acc from by
      have hne2 : ¬ (pyStrip l = ['F', 'i', 'l', 'e', 's', ':']) := hne
      simp [legacyScan, hne2]]
    exact ih (fun x hx => hh x (List.mem_cons_of_mem _ hx))

/-- The `Files:` line opens the files section of the legacy scan. -/
theorem legacyScan_filesOpen (rest : List Chars) (inF : Bool) (acc : List Chars) :
    legacyScan ("Files:".toList :: rest) inF acc = legacyScan rest true acc := by
  have h : pyStrip ['F', 'i', 'l', 'e', 's', ':'] = ['F', 'i', 'l', 'e', 's', ':'] := rfl
  simp [legacyScan, h]

/-- Inside the open files section every well-formed file line is collected. -/
theorem legacyScan_files (files rest : List Chars) (acc : List Chars)
    (hf : ∀ f ∈ files, wfFile f) :
    legacyScan (files ++ rest) true acc = legacyScan rest true (acc ++ files) := by
  induction files generalizing acc with
  | nil => simp
  | cons f t ih =>
    obtain ⟨⟨hnl, hbr, hstp, hne⟩, hdash, hfl, hdp⟩ := hf f (List.mem_cons_self _ _)
    have hstrip : pyStrip f = f := pyStrip_eq_self f hstp
    rw [List.cons_append]
    rw [show legacyScan (f :: (t ++ rest)) true acc
        = legacyScan (t ++ rest) true (acc ++ [f]) from by
      have hfl2 : ¬ (f = ['F', 'i', 'l', 'e', 's', ':']) := hfl
      simp [legacyScan, hstrip, hfl2, hne]]
    rw [ih (acc ++ [f]) (fun x hx => hf x (List.mem_cons_of_mem _ hx))]
    simp

/-- C10: on a legacy transaction log (no `[FIX]` markers), `unfix` puts
every file listed after the `Files:` line into the delete set and removes
the log file itself, whatever `fixDate` argument was supplied — date
selection only exists for the block-marker format. -/
theorem unfix_legacy_removes_all (headerLines files : List Chars)
    (fd : Option Chars)
    (hh : ∀ l ∈ headerLines, wfLegacyHeader l)
    (hf : ∀ f ∈ files, wfFile f) :
    unfixGameWorker (some (serializeLegacy headerLines files)) fd
      = { status := "done", error := none, deleteSet := files,
          logAction := .remove } := by
  have hbr : '[' ∉ serializeLegacy headerLines files := by
    rw [serializeLegacy]
    refine not_mem_pyJoin '[' ['\n'] _ (by decide) ?_
    intro p hp
    rcases List.mem_append.mp hp with h | h
    · exact (hh p h).1.2
    · rcases List.mem_cons.mp h with rfl | h2
      · decide
      · exact (hf p h2).1.2.1
  have hsplit1 : pySplit "[FIX]".toList (serializeLegacy headerLines files)
      = [serializeLegacy headerLines files] := by
    show splitOnSubAux '[' "FIX]".toList (serializeLegacy headerLines files) []
      = _
    rw [splitOnSubAux_no_sep '[' "FIX]".toList _ []
      (not_infix_of_head_not_mem '[' "FIX]".toList _ hbr)]
    rfl
  have hcontains : containsSub "[FIX]".toList
      (serializeLegacy headerLines files) = false := by
    rw [containsSub, hsplit1]
    rfl
  have hlines : pySplit ['\n'] (serializeLegacy headerLines files)
      = headerLines ++ "Files:".toList :: files := by
    rw [serializeLegacy]
    refine pySplit_join_newline _ (by simp) ?_
    intro l hl
    rcases List.mem_append.mp hl with h | h
    · exact (hh l h).1.1
    · rcases List.mem_cons.mp h with rfl | h2
      · decide
      · exact (hf l h2).1.1
  rw [unfixGameWorker, parseUnfixLog, if_neg (by rw [hcontains]; simp), hlines,
    legacyScan_skip_headers headerLines _ [] (fun l hl => (hh l hl).2),
    legacyScan_filesOpen]
  rw [show (files : List Chars) = files ++ [] from (List.append_nil _).symm,
    legacyScan_files files [] [] hf]
  simp [legacyScan]

/-- C10 witness: a concrete legacy log with two files is fully removed even
though a `fixDate` matching its `Date:` line is supplied. -/
theorem unfix_legacy_removes_all_witness :
    unfixGameWorker
      (some (serializeLegacy
        ["Date: 2024-01-01 10:00:00".toList, "Game: GameA".toList,
         "Fix Type: Generic Fix".toList, "Download URL: http://a".toList]
        ["x.dll".toList, "y.dll".toList]))
      (some "2024-01-01 10:00:00".toList)
      = { status := "done", error := none,
          deleteSet := ["x.dll".toList, "y.dll".toList],
          logAction := .remove } :=
  unfix_legacy_removes_all _ _ _
    (by simp only [wfLegacyHeader, wfText]; decide)
    (by simp only [wfFile, wfField, strippedStr]; decide)

end SkyTools
